import Mathlib

/-!
Verification of the Spring Test App's text-to-structured-data core.

This file gives a shallow embedding of the Python source under `src/`:

* `src/utils/text_parser.py`  — `extract_parameters`, `extract_command_sequence`,
  `format_parameter_text`, `extract_error_message`
* `src/utils/constants.py`    — `COMMANDS`, `PARAMETER_PATTERNS`, required columns
* `src/utils/api_client.py`   — `APIClientWorker.run` (retry loop, progress/status
  emission, chat-memory mutation, column reconciliation)

Strings are modelled as `List Char` (`Str`).  Python values that flow through
`json.loads` and the worker are modelled by `PyVal`; Python exceptions by
`PyErr` (the worker's `except` clause catches `KeyError`/`ValueError`/
`json.JSONDecodeError`, so `PyErr.caught` distinguishes them from uncaught
`TypeError`/`IndexError`/`AttributeError`).  The handful of regular
expressions in the source are embedded as bespoke matchers whose backtracking
behaviour is matched to Python `re` semantics case by case (leftmost match,
alternatives tried left to right, greedy repetition); each matcher's comment
records the source pattern it implements.  Python float values are modelled
by `Rat`; numeric text rendering (`f-strings`) is modelled by exact decimal
rounding, which agrees with Python on the exactly-representable values the
claims exercise and which no theorem below depends on.
-/

set_option autoImplicit false

/-- Python strings, modelled as lists of characters. -/
abbrev Str := List Char

/-- Shorthand to turn a Lean string literal into a `Str`. -/
def S (s : String) : Str := s.toList

/-- Python `str.lower` on a single character (ASCII case, which is all the
source's patterns use). -/
def lowerChar (c : Char) : Char := c.toLower

/-- Python `str.lower`. -/
def lowerStr (s : Str) : Str := s.map lowerChar

/-- Characters matched by the regex class `\s` and stripped by Python's
`str.strip` (the Python whitespace set). -/
def isPySpace (c : Char) : Bool :=
  c = ' ' || c = '\t' || c = '\n' || c = '\r' || c = '\x0b' || c = '\x0c'

/-- Characters matched by the regex class `\d`. -/
def isDig (c : Char) : Bool := '0' ≤ c && c ≤ '9'

/-- Characters matched by the regex class `\w` (ASCII part, which is what the
word-boundary checks in the test-type patterns need on the claims' inputs). -/
def isWordChar (c : Char) : Bool :=
  ('a' ≤ c && c ≤ 'z') || ('A' ≤ c && c ≤ 'Z') || isDig c || c = '_'

/-- `needle.isPrefixOf hay` up to ASCII case, returning the rest of `hay`;
models matching a case-insensitive literal (`re.IGNORECASE`). -/
def litCI : Str → Str → Option Str
  | [], s => some s
  | _ :: _, [] => none
  | c :: cs, d :: ds => if lowerChar d = lowerChar c then litCI cs ds else none

/-- Python `needle in hay` for strings (substring containment). -/
def containsSub (needle : Str) : Str → Bool
  | [] => (litCI needle []).isSome
  | s@(_ :: t) => (litCI needle s).isSome || containsSub needle t

/-- Case-sensitive variant of `litCI` (for patterns compiled without
`re.IGNORECASE`, and for exact substring checks). -/
def litCS : Str → Str → Option Str
  | [], s => some s
  | _ :: _, [] => none
  | c :: cs, d :: ds => if d = c then litCS cs ds else none

/-- Python `needle in hay`, case-sensitively. -/
def containsSubCS (needle : Str) : Str → Bool
  | [] => (litCS needle []).isSome
  | s@(_ :: t) => (litCS needle s).isSome || containsSubCS needle t

/-- Python `str.strip()` (no argument): drop Python whitespace from both ends. -/
def pyStrip (s : Str) : Str :=
  ((s.dropWhile isPySpace).reverse.dropWhile isPySpace).reverse

/-- Greedy `\s*`: drop the maximal whitespace run.  Used only where the
pattern that follows cannot match a whitespace character, so the regex
engine's backtracking into the repetition can never succeed and dropping
greedily is exact. -/
def dropSpaces (s : Str) : Str := s.dropWhile isPySpace

/-- Values of the dynamically-typed Python fragment the source manipulates:
the results of `json.loads`, the parameter dictionaries, and the worker's
response payloads.  Python dicts are insertion-ordered association lists
(`json.loads` never produces duplicate keys: a duplicate source key
overwrites in place).  `num` models both Python `int` and `float` (no claim
distinguishes them); `nan`/`inf` model the non-finite floats Python's `json`
accepts via `NaN`/`Infinity`. -/
inductive PyVal where
  | null : PyVal
  | bool : Bool → PyVal
  | num : Rat → PyVal
  | nan : PyVal
  | inf : Bool → PyVal
  | str : Str → PyVal
  | arr : List PyVal → PyVal
  | obj : List (Str × PyVal) → PyVal

/-- Python exceptions relevant to the embedded code.  The carried string
models `str(e)` where the source interpolates it; messages of exceptions the
source never stringifies are abbreviated.  `KeyError`, `ValueError` and
`json.JSONDecodeError` (a `ValueError` subclass, folded into `valueError`)
are the classes caught by the worker's parse-error handler; the rest
propagate as uncaught faults. -/
inductive PyErr where
  | keyError : Str → PyErr
  | valueError : Str → PyErr
  | typeError : Str → PyErr
  | indexError : Str → PyErr
  | attrError : Str → PyErr
  deriving DecidableEq

/-- Whether the worker's `except (KeyError, ValueError, json.JSONDecodeError)`
clause catches the exception. -/
def PyErr.caught : PyErr → Bool
  | .keyError _ => true
  | .valueError _ => true
  | _ => false

/-- `str(e)` as interpolated into the worker's error messages. -/
def PyErr.msg : PyErr → Str
  | .keyError m => m
  | .valueError m => m
  | .typeError m => m
  | .indexError m => m
  | .attrError m => m

/-- Python truthiness of a value (`if data:` and `if response_text:`). -/
def pyTruthy : PyVal → Bool
  | .null => false
  | .bool b => b
  | .num q => q ≠ 0
  | .nan => true
  | .inf _ => true
  | .str s => !s.isEmpty
  | .arr l => !l.isEmpty
  | .obj l => !l.isEmpty

/-- Association-list update that keeps the original key position, as Python
dict assignment does for an existing key (`row[cmd_key] = cmd_code` always
hits an existing key). -/
def assocSet (k : Str) (v : PyVal) : List (Str × PyVal) → List (Str × PyVal)
  | [] => [(k, v)]
  | (k', v') :: rest => if k' = k then (k, v) :: rest else (k', v') :: assocSet k v rest

/-- Python `==` against a string: true only for an equal `str` (a `str`
never equals a non-`str` under Python `==` for the values in play). -/
def eqStrVal (needle : Str) : PyVal → Bool
  | .str s => s = needle
  | _ => false

/-- Python `key in container` for a string key: dict key membership, string
substring containment, list element membership; membership in a number
raises `TypeError`. -/
def pyInStr (needle : Str) : PyVal → Except PyErr Bool
  | .obj l => .ok (l.any fun p => p.1 = needle)
  | .str s => .ok (containsSubCS needle s)
  | .arr l => .ok (l.any (eqStrVal needle))
  | _ => .error (.typeError (S "argument is not iterable"))

/-- Python `container[key]` for a string key: dict lookup (`KeyError` when
missing); string and list subscripts with a string key raise `TypeError`. -/
def pySubscript (v : PyVal) (key : Str) : Except PyErr PyVal :=
  match v with
  | .obj l => match l.lookup key with
    | some w => .ok w
    | none => .error (.keyError key)
  | .str _ => .error (.typeError (S "string indices must be integers"))
  | .arr _ => .error (.typeError (S "list indices must be integers"))
  | _ => .error (.typeError (S "object is not subscriptable"))

/-- Python `container[0]`: list head (`IndexError` when empty), first
character of a string, `KeyError` for a dict without the integer key `0`
(`json.loads` keys are strings, so the lookup always misses). -/
def pySubscriptZero (v : PyVal) : Except PyErr PyVal :=
  match v with
  | .arr [] => .error (.indexError (S "list index out of range"))
  | .arr (x :: _) => .ok x
  | .str [] => .error (.indexError (S "string index out of range"))
  | .str (c :: _) => .ok (.str [c])
  | .obj _ => .error (.keyError (S "0"))
  | _ => .error (.typeError (S "object is not subscriptable"))

/-- Python `d.get(key, default)`: dict lookup with default; calling `.get` on
a non-dict raises `AttributeError`. -/
def pyGet (v : PyVal) (key : Str) (dflt : PyVal) : Except PyErr PyVal :=
  match v with
  | .obj l => .ok ((l.lookup key).getD dflt)
  | _ => .error (.attrError (S "object has no attribute get"))

/-! ### A model of `json.loads`

`extract_command_sequence` feeds extracted text to `json.loads`; the worker
also calls `response.json()`.  The parser below implements the JSON grammar
Python's `json` module accepts with default settings (strict strings, the
non-finite extensions `NaN`/`Infinity`/`-Infinity`), failing with
`ValueError` (the class of `json.JSONDecodeError`). -/

/-- JSON whitespace (the characters `json.loads` skips between tokens). -/
def isJsonWs (c : Char) : Bool := c = ' ' || c = '\t' || c = '\n' || c = '\r'

def dropJsonWs (s : Str) : Str := s.dropWhile isJsonWs

def jErr {α : Type} (m : String) : Except PyErr α := .error (.valueError (S m))

/-- Hex digit value for `\uXXXX` escapes. -/
def hexVal (c : Char) : Option Nat :=
  if '0' ≤ c && c ≤ '9' then some (c.toNat - 48)
  else if 'a' ≤ c && c ≤ 'f' then some (c.toNat - 87)
  else if 'A' ≤ c && c ≤ 'F' then some (c.toNat - 55)
  else none

/-- Parse the body of a JSON string literal (after the opening quote),
returning the decoded characters and the rest of the input.  Strict mode:
raw control characters are invalid. -/
def jString : Str → Except PyErr (Str × Str)
  | [] => jErr "Unterminated string"
  | '"' :: rest => .ok ([], rest)
  | '\\' :: rest =>
    match rest with
    | 'u' :: h1 :: h2 :: h3 :: h4 :: r =>
      match hexVal h1, hexVal h2, hexVal h3, hexVal h4 with
      | some a, some b, some c, some d =>
        (jString r).map fun p => (Char.ofNat (((a * 16 + b) * 16 + c) * 16 + d) :: p.1, p.2)
      | _, _, _, _ => jErr "Invalid hex escape"
    | c :: r =>
      let dec : Option Char :=
        if c = '"' then some '"' else if c = '\\' then some '\\'
        else if c = '/' then some '/' else if c = 'b' then some '\x08'
        else if c = 'f' then some '\x0c' else if c = 'n' then some '\n'
        else if c = 'r' then some '\r' else if c = 't' then some '\t' else none
      match dec with
      | some d => (jString r).map fun p => (d :: p.1, p.2)
      | none => jErr "Invalid escape"
    | [] => jErr "Unterminated string"
  | c :: rest =>
    if c.toNat < 32 then jErr "Invalid control character"
    else (jString rest).map fun p => (c :: p.1, p.2)

/-- Parse a JSON number (strict grammar: `-?(0|[1-9][0-9]*)(\.[0-9]+)?([eE][+-]?[0-9]+)?`),
returning its exact rational value. -/
def jNumber (s : Str) : Except PyErr (Rat × Str) :=
  let (sgn, s1) : (Bool × Str) := match s with
    | '-' :: r => (true, r)
    | _ => (false, s)
  let intPart : Option (Nat × Str) := match s1 with
    | '0' :: r => some (0, r)
    | c :: _ =>
      if isDig c then
        let ds := s1.takeWhile isDig
        some (ds.foldl (fun n c => n * 10 + (c.toNat - 48)) 0, s1.drop ds.length)
      else none
    | [] => none
  match intPart with
  | none => jErr "Expecting value"
  | some (ip, s2) =>
    let fracPart : Option (Option Rat × Str) := match s2 with
      | '.' :: r =>
        let ds := r.takeWhile isDig
        if ds.isEmpty then none
        else some (some ((ds.foldl (fun n c => n * 10 + (c.toNat - 48)) 0 : Rat) / ((10 : Rat) ^ ds.length)), r.drop ds.length)
      | _ => some (none, s2)
    match fracPart with
    | none => jErr "Expecting digits after decimal point"
    | some (fr?, s3) =>
      let expPart : Option (Option Int × Str) := match s3 with
        | e :: r =>
          if e = 'e' || e = 'E' then
            let (esgn, r1) : (Bool × Str) := match r with
              | '+' :: r' => (false, r')
              | '-' :: r' => (true, r')
              | _ => (false, r)
            let ds := r1.takeWhile isDig
            if ds.isEmpty then none
            else
              let ev : Nat := ds.foldl (fun n c => n * 10 + (c.toNat - 48)) 0
              some (some (if esgn then -(ev : Int) else (ev : Int)), r1.drop ds.length)
          else some (none, s3)
        | [] => some (none, s3)
      match expPart with
      | none => jErr "Expecting digits in exponent"
      | some (ex?, s4) =>
        -- An integer literal needs no rational arithmetic; the general
        -- case combines the parts (same value either way).
        let mag : Rat := match fr?, ex? with
          | none, none => (ip : Rat)
          | fr', ex' => ((ip : Rat) + fr'.getD 0) * (10 : Rat) ^ (ex'.getD 0)
        .ok (if sgn then -mag else mag, s4)

mutual

/-- Parse one JSON value from the input (leading whitespace already skipped). -/
def jValue : Nat → Str → Except PyErr (PyVal × Str)
  | 0, _ => jErr "Input too deeply nested"
  | fuel + 1, s =>
    match s with
    | [] => jErr "Expecting value"
    | 'n' :: r => match litCS (S "ull") r with
      | some r' => .ok (.null, r')
      | none => jErr "Expecting value"
    | 't' :: r => match litCS (S "rue") r with
      | some r' => .ok (.bool true, r')
      | none => jErr "Expecting value"
    | 'f' :: r => match litCS (S "alse") r with
      | some r' => .ok (.bool false, r')
      | none => jErr "Expecting value"
    | 'N' :: r => match litCS (S "aN") r with
      | some r' => .ok (.nan, r')
      | none => jErr "Expecting value"
    | 'I' :: r => match litCS (S "nfinity") r with
      | some r' => .ok (.inf true, r')
      | none => jErr "Expecting value"
    | '"' :: r => (jString r).map fun p => (.str p.1, p.2)
    | '[' :: r =>
      match dropJsonWs r with
      | ']' :: r' => .ok (.arr [], r')
      | r' => jArrItems fuel [] r'
    | '{' :: r =>
      match dropJsonWs r with
      | '}' :: r' => .ok (.obj [], r')
      | r' => jObjItems fuel [] r'
    | '-' :: r =>
      match litCS (S "Infinity") r with
      | some r' => .ok (.inf false, r')
      | none => (jNumber s).map fun p => (.num p.1, p.2)
    | _ => (jNumber s).map fun p => (.num p.1, p.2)

/-- Parse the remaining elements of a JSON array (positioned at a value). -/
def jArrItems : Nat → List PyVal → Str → Except PyErr (PyVal × Str)
  | 0, _, _ => jErr "Input too deeply nested"
  | fuel + 1, acc, s =>
    match jValue fuel s with
    | .error e => .error e
    | .ok (v, rest) =>
      match dropJsonWs rest with
      | ',' :: r => jArrItems fuel (acc ++ [v]) (dropJsonWs r)
      | ']' :: r => .ok (.arr (acc ++ [v]), r)
      | _ => jErr "Expecting comma delimiter"

/-- Parse the remaining members of a JSON object (positioned at a key).
A duplicate key overwrites the earlier value in place, as a Python dict
insertion does. -/
def jObjItems : Nat → List (Str × PyVal) → Str → Except PyErr (PyVal × Str)
  | 0, _, _ => jErr "Input too deeply nested"
  | fuel + 1, acc, s =>
    match s with
    | '"' :: r =>
      match jString r with
      | .error e => .error e
      | .ok (key, rest) =>
        match dropJsonWs rest with
        | ':' :: r2 =>
          match jValue fuel (dropJsonWs r2) with
          | .error e => .error e
          | .ok (v, rest2) =>
            let acc' := if acc.any (fun p => p.1 = key) then assocSet key v acc else acc ++ [(key, v)]
            match dropJsonWs rest2 with
            | ',' :: r3 => jObjItems fuel acc' (dropJsonWs r3)
            | '}' :: r3 => .ok (.obj acc', r3)
            | _ => jErr "Expecting comma delimiter"
        | _ => jErr "Expecting colon delimiter"
    | _ => jErr "Expecting property name"

end

/-- Model of `json.loads`: parse a complete document, requiring only
whitespace after the value. -/
def jsonLoads (s : Str) : Except PyErr PyVal :=
  match jValue (s.length + 1) (dropJsonWs s) with
  | .error e => .error e
  | .ok (v, rest) =>
    if (dropJsonWs rest).isEmpty then .ok v else jErr "Extra data"

/-! ### Bespoke matchers for the source's regular expressions

Each `match...At` function decides whether its pattern matches at the start
of the input and returns the text of capture group 1; `scanPos` turns it
into `re.search` (leftmost match).  Greedy `\s*` is modelled by `dropSpaces`
wherever what follows cannot match whitespace (so backtracking into the
repetition cannot succeed); the one capture class that does contain `\s`
(Customer ID) gets a dedicated donate-back analysis below. -/

/-- Try the alternatives of a group in order, with full backtracking into the
continuation `k`, as Python's alternation does. -/
def tryAltsM : List (Str → Option Str) → Str → (Str → Option Str) → Option Str
  | [], _, _ => none
  | a :: rest, s, k =>
    match a s with
    | some s' =>
      match k s' with
      | some r => some r
      | none => tryAltsM rest s k
    | none => tryAltsM rest s k

/-- A case-insensitive literal alternative. -/
def aLit (w : String) : Str → Option Str := litCI (S w)

/-- The alternative `no\.?` in the Part/Model Number patterns.  The optional
dot is consumed greedily; not consuming it always fails, because every
continuation of these patterns (`\s*`, `[=:]`, `is`, `[A-Za-z0-9-_]+`)
rejects a leading dot, so the greedy choice is exact. -/
def aNoDot (s : Str) : Option Str :=
  (litCI (S "no") s).map fun r =>
    match r with
    | '.' :: r' => r'
    | _ => r

/-- A required group `(?:w1|w2|…)` followed by `\s*`. -/
def reqGrp (alts : List (Str → Option Str)) (s : Str) (k : Str → Option Str) : Option Str :=
  tryAltsM alts s (fun s' => k (dropSpaces s'))

/-- An optional group `(?:w1|w2|…)?` followed by `\s*`: alternatives are
tried first (greedy), then the empty match. -/
def optGrp (alts : List (Str → Option Str)) (s : Str) (k : Str → Option Str) : Option Str :=
  match tryAltsM alts s (fun s' => k (dropSpaces s')) with
  | some r => some r
  | none => k (dropSpaces s)

/-- The capture `(\d+\.?\d*)`, all parts greedy.  After the capture these
patterns end with `\s*(?:mm)?` (or nothing), which always succeeds, so a
match is complete as soon as `\d+` succeeds. -/
def numCap (s : Str) : Option Str :=
  let ds := s.takeWhile isDig
  if ds.isEmpty then none
  else
    match s.drop ds.length with
    | '.' :: r => some (ds ++ '.' :: r.takeWhile isDig)
    | _ => some ds

/-- Characters of the capture class `[A-Za-z0-9-_]`. -/
def isIdChar (c : Char) : Bool :=
  ('a' ≤ c && c ≤ 'z') || ('A' ≤ c && c ≤ 'Z') || isDig c || c = '-' || c = '_'

/-- The capture `([A-Za-z0-9-_]+)` (greedy, ends the pattern). -/
def idCap (s : Str) : Option Str :=
  let run := s.takeWhile isIdChar
  if run.isEmpty then none else some run

/-- `re.search`: try the pattern at every position, leftmost match wins
(including the end-of-string position, where all patterns here fail since
they begin with a literal). -/
def scanPos (m : Str → Option Str) : Str → Option Str
  | [] => m []
  | s@(_ :: t) =>
    match m s with
    | some r => some r
    | none => scanPos m t

/-- Connector group `(?:[=:]|is)?` shared by most parameter patterns. -/
def conn3 : List (Str → Option Str) := [aLit "=", aLit ":", aLit "is"]

/-- `free\s*length\s*(?:[=:]|is|of)?\s*(\d+\.?\d*)\s*(?:mm)?` at one position. -/
def matchFLAt (s : Str) : Option Str :=
  reqGrp [aLit "free"] s fun s1 =>
  reqGrp [aLit "length"] s1 fun s2 =>
  optGrp [aLit "=", aLit ":", aLit "is", aLit "of"] s2 numCap

/-- `part\s*(?:number|#|no\.?)?\s*(?:[=:]|is)?\s*([A-Za-z0-9-_]+)` at one position. -/
def matchPartAt (s : Str) : Option Str :=
  reqGrp [aLit "part"] s fun s1 =>
  optGrp [aLit "number", aLit "#", aNoDot] s1 fun s2 =>
  optGrp conn3 s2 idCap

/-- `model\s*(?:number|#|no\.?)?\s*(?:[=:]|is)?\s*([A-Za-z0-9-_]+)` at one position. -/
def matchModelAt (s : Str) : Option Str :=
  reqGrp [aLit "model"] s fun s1 =>
  optGrp [aLit "number", aLit "#", aNoDot] s1 fun s2 =>
  optGrp conn3 s2 idCap

/-- `wire\s*(?:diameter|thickness)?\s*(?:[=:]|is)?\s*(\d+\.?\d*)\s*(?:mm)?`. -/
def matchWireAt (s : Str) : Option Str :=
  reqGrp [aLit "wire"] s fun s1 =>
  optGrp [aLit "diameter", aLit "thickness"] s1 fun s2 =>
  optGrp conn3 s2 numCap

/-- `(?:outer|outside)\s*diameter\s*(?:[=:]|is)?\s*(\d+\.?\d*)\s*(?:mm)?`. -/
def matchOuterAt (s : Str) : Option Str :=
  reqGrp [aLit "outer", aLit "outside"] s fun s1 =>
  reqGrp [aLit "diameter"] s1 fun s2 =>
  optGrp conn3 s2 numCap

/-- `(?:inner|inside)\s*diameter\s*(?:[=:]|is)?\s*(\d+\.?\d*)\s*(?:mm)?`. -/
def matchInnerAt (s : Str) : Option Str :=
  reqGrp [aLit "inner", aLit "inside"] s fun s1 =>
  reqGrp [aLit "diameter"] s1 fun s2 =>
  optGrp conn3 s2 numCap

/-- `(?:spring|target)\s*rate\s*(?:[=:]|is)?\s*(\d+\.?\d*)`. -/
def matchRateAt (s : Str) : Option Str :=
  reqGrp [aLit "spring", aLit "target"] s fun s1 =>
  reqGrp [aLit "rate"] s1 fun s2 =>
  optGrp conn3 s2 numCap

/-- `(?:test|target)\s*load\s*(?:[=:]|is)?\s*(\d+\.?\d*)`. -/
def matchLoadAt (s : Str) : Option Str :=
  reqGrp [aLit "test", aLit "target"] s fun s1 =>
  reqGrp [aLit "load"] s1 fun s2 =>
  optGrp conn3 s2 numCap

/-- `deflection\s*(?:[=:]|is)?\s*(\d+\.?\d*)`. -/
def matchDeflAt (s : Str) : Option Str :=
  reqGrp [aLit "deflection"] s fun s1 =>
  optGrp conn3 s1 numCap

/-- `working\s*length\s*(?:[=:]|is)?\s*(\d+\.?\d*)`. -/
def matchWorkAt (s : Str) : Option Str :=
  reqGrp [aLit "working"] s fun s1 =>
  reqGrp [aLit "length"] s1 fun s2 =>
  optGrp conn3 s2 numCap

/-- Characters of the Customer ID capture class `[A-Za-z0-9\s]+`. -/
def isCustCls (c : Char) : Bool :=
  ('a' ≤ c && c ≤ 'z') || ('A' ≤ c && c ≤ 'Z') || isDig c || isPySpace c

/-- The tail `\s*([A-Za-z0-9\s]+)` of the Customer ID pattern, where `pool`
is the whitespace run the preceding `\s*`s consumed (available for
donate-back) and `t` the input after it (starting with a non-space).  If `t`
begins with a class character the greedy `\s*` keeps the whole pool and the
capture is the maximal class run of `t`; otherwise the engine backtracks and
the first success donates exactly the last pooled space as a one-character
capture (longer donations are tried later, shorter `\s*` first never
happens: the repetitions give back one character at a time from the end). -/
def custTail (pool t : Str) : Option Str :=
  let cr := t.takeWhile isCustCls
  if !cr.isEmpty then some cr
  else
    match pool.getLast? with
    | some c => some [c]
    | none => none

/-- The segment `(?:[=:]|is)?\s*([A-Za-z0-9\s]+)` of the Customer ID
pattern, with `pool`/`t` as in `custTail`. -/
def custSeg2 (pool t : Str) : Option Str :=
  match tryAltsM conn3 t (fun r =>
      custTail (r.takeWhile isPySpace) (r.dropWhile isPySpace)) with
  | some c => some c
  | none => custTail pool t

/-- `customer\s*(?:id|number)?\s*(?:[=:]|is)?\s*([A-Za-z0-9\s]+)` at one
position.  The word groups can only match after the whole preceding
whitespace run (they start with letters), so they are tried at the run's
end; the runs remain donate-back pools for the final capture. -/
def matchCustAt (s : Str) : Option Str :=
  (litCI (S "customer") s).bind fun s1 =>
  let w1 := s1.takeWhile isPySpace
  let t1 := s1.dropWhile isPySpace
  match tryAltsM [aLit "id", aLit "number"] t1 (fun r =>
      custSeg2 (r.takeWhile isPySpace) (r.dropWhile isPySpace)) with
  | some c => some c
  | none => custSeg2 w1 t1

/-- `re.search` for each parameter pattern of `PARAMETER_PATTERNS`
(`utils/constants.py`). -/
def searchFL : Str → Option Str := scanPos matchFLAt
def searchPart : Str → Option Str := scanPos matchPartAt
def searchModel : Str → Option Str := scanPos matchModelAt
def searchWire : Str → Option Str := scanPos matchWireAt
def searchOuter : Str → Option Str := scanPos matchOuterAt
def searchInner : Str → Option Str := scanPos matchInnerAt
def searchRate : Str → Option Str := scanPos matchRateAt
def searchLoad : Str → Option Str := scanPos matchLoadAt
def searchDefl : Str → Option Str := scanPos matchDeflAt
def searchWork : Str → Option Str := scanPos matchWorkAt
def searchCust : Str → Option Str := scanPos matchCustAt

/-- The word alternatives of the compression-class pattern
`\b(?:compress|compression|comp|compressive|pushing|push|pressing|press)\b`. -/
def compWords : List Str :=
  [S "compress", S "compression", S "comp", S "compressive",
   S "pushing", S "push", S "pressing", S "press"]

/-- The word alternatives of the tension-class pattern
`\b(?:tens|tension|extension|extend|tensile|extending|pulling|pull|stretching|stretch)\b`. -/
def tensWords : List Str :=
  [S "tens", S "tension", S "extension", S "extend", S "tensile",
   S "extending", S "pulling", S "pull", S "stretching", S "stretch"]

/-- Truth of `re.search(r'\b(?:w1|w2|…)\b', text, re.IGNORECASE)` where every
alternative starts and ends with a word character: a match exists iff some
position starts an alternative case-insensitively, the previous character
(if any) is a non-word character, and the character after the alternative
(if any) is a non-word character.  Only existence is used by the source
(`if re.search(...)`), so the engine's preference order is irrelevant. -/
def wordAltAux (alts : List Str) (prev : Option Char) : Str → Bool
  | [] => false
  | s@(c :: rest) =>
    ((match prev with
      | none => true
      | some p => !isWordChar p) &&
     alts.any fun w =>
       match litCI w s with
       | some r =>
         match r.head? with
         | some d => !isWordChar d
         | none => true
       | none => false)
    || wordAltAux alts (some c) rest

/-- `re.search` truth for the compression-class keyword pattern. -/
def compSearch (text : Str) : Bool := wordAltAux compWords none text

/-- `re.search` truth for the tension-class keyword pattern. -/
def tensSearch (text : Str) : Bool := wordAltAux tensWords none text

/-- Python `float(value)`: surrounding whitespace ignored, optional sign,
decimal digits with optional fraction and exponent.  (The special names
`inf`/`nan` and digit underscores never reach this call: every converted
capture has shape `\d+\.?\d*`.) -/
def pyFloat (s0 : Str) : Option Rat :=
  let s := pyStrip s0
  let (sgn, s1) : (Bool × Str) := match s with
    | '-' :: r => (true, r)
    | '+' :: r => (false, r)
    | _ => (false, s)
  let ds1 := s1.takeWhile isDig
  let s2 := s1.drop ds1.length
  let (ds2, s3) : (Str × Str) := match s2 with
    | '.' :: r => (r.takeWhile isDig, r.drop (r.takeWhile isDig).length)
    | _ => ([], s2)
  if ds1.isEmpty && ds2.isEmpty then none
  else
    let ip : Nat := ds1.foldl (fun n c => n * 10 + (c.toNat - 48)) 0
    -- A digits-only value needs no rational arithmetic; the general case
    -- combines integer part, fraction and exponent (same value either way).
    let base : Rat :=
      if ds2.isEmpty then (ip : Rat)
      else (ip : Rat) + (ds2.foldl (fun n c => n * 10 + (c.toNat - 48)) 0 : Rat) / (10 : Rat) ^ ds2.length
    let withExp : Option Rat := match s3 with
      | [] => some base
      | e :: r =>
        if e = 'e' || e = 'E' then
          let (esgn, r1) : (Bool × Str) := match r with
            | '+' :: r' => (false, r')
            | '-' :: r' => (true, r')
            | _ => (false, r)
          let eds := r1.takeWhile isDig
          if eds.isEmpty || !(r1.drop eds.length).isEmpty then none
          else
            let ev : Nat := eds.foldl (fun n c => n * 10 + (c.toNat - 48)) 0
            some (base * (10 : Rat) ^ (if esgn then -(ev : Int) else (ev : Int)))
        else none
    withExp.map fun q => if sgn then -q else q

/-- The `PARAMETER_PATTERNS` table of `utils/constants.py`, in source order,
each pattern paired with its embedded `re.search`. -/
def PARAMETER_PATTERNS : List (Str × (Str → Option Str)) :=
  [(S "Free Length", searchFL), (S "Part Number", searchPart),
   (S "Model Number", searchModel), (S "Wire Diameter", searchWire),
   (S "Outer Diameter", searchOuter), (S "Inner Diameter", searchInner),
   (S "Spring Rate", searchRate), (S "Test Load", searchLoad),
   (S "Deflection", searchDefl), (S "Working Length", searchWork),
   (S "Customer ID", searchCust)]

/-- The parameters excluded from numeric conversion in `extract_parameters`. -/
def stringOnlyParams : List Str := [S "Part Number", S "Model Number", S "Customer ID"]

/-- `value = match.group(1).strip()` followed by the numeric-conversion
branch of `extract_parameters`. -/
def convParam (name cap : Str) : PyVal :=
  let v := pyStrip cap
  if stringOnlyParams.contains name then .str v
  else
    match pyFloat v with
    | some q => .num q
    | none => .str v

/-- `extract_parameters` of `utils/text_parser.py`.  The wall-clock
timestamp is passed in as `now` (the source formats `datetime.now()`).
The returned dictionary is the insertion-ordered association list: the test
type (if any), then each matched pattern in table order, then the
timestamp. -/
def extract_parameters (text now : Str) : List (Str × PyVal) :=
  (if compSearch text then [(S "Test Type", PyVal.str (S "Compression"))]
   else if tensSearch text then [(S "Test Type", PyVal.str (S "Tension"))]
   else [])
  ++ PARAMETER_PATTERNS.filterMap (fun p => (p.2 text).map fun cap => (p.1, convParam p.1 cap))
  ++ [(S "Timestamp", PyVal.str now)]

/-! ### `extract_command_sequence` (`utils/text_parser.py`) -/

/-- The `COMMANDS` table of `utils/constants.py` (18 entries, in source
order — the back-fill loop takes the first match in this order). -/
def COMMANDS : List (Str × Str) :=
  [(S "ZF", S "Zero Force"), (S "ZD", S "Zero Displacement"),
   (S "TH", S "Threshold (Search Contact)"), (S "LP", S "Loop"),
   (S "Mv(P)", S "Move to Position"), (S "Calc", S "Formula Calculation"),
   (S "TD", S "Time Delay"), (S "PMsg", S "User Message"),
   (S "Fr(P)", S "Force at Position"), (S "FL(P)", S "Measure Free Length"),
   (S "Scrag", S "Scragging"), (S "SR", S "Spring Rate"),
   (S "PkF", S "Measure Peak Force"), (S "PkP", S "Measure Peak Position"),
   (S "Po(F)", S "Position at Force"), (S "Po(PkF)", S "Position at Peak Force"),
   (S "Mv(F)", S "Move to Force"), (S "PUi", S "User Input")]

/-- Content of the text before the first occurrence of `needle` (models the
non-greedy `(.*?)` before a literal); `none` when `needle` does not occur. -/
def takeUntilSub (needle : Str) : Str → Option Str
  | [] => if needle.isEmpty then some [] else none
  | s@(c :: t) =>
    if (litCS needle s).isSome then some []
    else (takeUntilSub needle t).map (c :: ·)

/-- The prefix of `s` up to and including the last occurrence of `c`
(models a greedy `.*` before a literal character); `none` when absent. -/
def takeToLast (c : Char) (s : Str) : Option Str :=
  match s.reverse.dropWhile (· ≠ c) with
  | [] => none
  | r => some r.reverse

/-- Which alternative of `` r'```json\n(.*?)\n```|(\[.*\])' `` matched, with
the text of its capture group. -/
inductive FenceHit where
  | g1 : Str → FenceHit
  | g2 : Str → FenceHit

/-- Match of the fence pattern at one position.  Alternative 1 needs the
literal header `` ```json⏎ `` and a later `` ⏎``` `` (the non-greedy body
stops at the first one); alternative 2 needs a `[` here and a `]` anywhere
later (the greedy body runs to the last one).  The alternatives start with
different characters, so at most one applies at a given position. -/
def fenceFindAt (s : Str) : Option FenceHit :=
  match litCS (S "```json\n") s with
  | some r => (takeUntilSub (S "\n```") r).map .g1
  | none =>
    match s with
    | '[' :: rest => (takeToLast ']' rest).map (fun m => .g2 ('[' :: m))
    | _ => none

/-- `re.search` of the fence pattern: leftmost position with a match. -/
def fenceScan : Str → Option FenceHit
  | [] => none
  | s@(_ :: t) =>
    match fenceFindAt s with
    | some h => some h
    | none => fenceScan t

/-- `json_content` after the `json_match.group(1) or json_match.group(2)`
step: `none` models Python `None` (an empty group-1 capture falls through to
the unset group 2). -/
def ecsContent (text : Str) : Option Str :=
  match fenceScan text with
  | some (.g1 c) => if c.isEmpty then none else some c
  | some (.g2 c) => some c
  | none => some text

/-- One line under `re.sub(r'^```.*|```$', '', line, flags=re.MULTILINE)`:
a line starting with `` ``` `` loses its whole content, otherwise a trailing
`` ``` `` is removed (the pattern cannot span lines: `.` excludes the
newline and `^`/`$` anchor at line boundaries). -/
def stripFenceLine (l : Str) : Str :=
  if (litCS (S "```") l).isSome then []
  else if (litCS (S "```") l.reverse).isSome then l.take (l.length - 3)
  else l

/-- Split at newlines (no newline kept in any piece). -/
def splitLines : Str → List Str
  | [] => [[]]
  | '\n' :: t => [] :: splitLines t
  | c :: t =>
    match splitLines t with
    | l :: ls => (c :: l) :: ls
    | [] => [[c]]

/-- The full fence-marker removal `re.sub(r'^```.*|```$', '', s, flags=re.MULTILINE)`. -/
def stripFenceLines (s : Str) : Str :=
  List.intercalate ['\n'] ((splitLines s).map stripFenceLine)

/-- Group 1 of `re.search(r'\[(.*)\]', s, re.DOTALL)`: the content between
the first `[` and the last `]`.  If the first `[` has no later `]`, no later
`[` can have one either, so the whole search fails. -/
def bracketInner : Str → Option Str
  | [] => none
  | '[' :: t => (takeToLast ']' t).map List.dropLast
  | _ :: t => bracketInner t

/-- `cmd_desc == description or cmd_desc in description` for one `COMMANDS`
entry (Python `==` of a `str` against an arbitrary value, then containment,
which raises `TypeError` on a non-container). -/
def descMatches (cmdDesc : Str) (desc : PyVal) : Except PyErr Bool :=
  if eqStrVal cmdDesc desc then .ok true
  else pyInStr cmdDesc desc

/-- The back-fill scan over `COMMANDS`: first entry whose description equals
or is contained in the row's description. -/
def findCmdCode (desc : PyVal) : List (Str × Str) → Except PyErr (Option Str)
  | [] => .ok none
  | (code, cmdDesc) :: rest =>
    match descMatches cmdDesc desc with
    | .error e => .error e
    | .ok true => .ok (some code)
    | .ok false => findCmdCode desc rest

/-- One iteration of the post-processing loop of `extract_command_sequence`:
evaluate `('Cmd' in row and not row['Cmd']) or ('CMD' in row and not
row['CMD'])` with Python short-circuiting, and on success back-fill
`row[cmd_key]` from the description. -/
def rowFix (row : PyVal) : Except PyErr PyVal :=
  match pyInStr (S "Cmd") row with
  | .error e => .error e
  | .ok hasCmd =>
    let lhs : Except PyErr Bool :=
      if hasCmd then
        match pySubscript row (S "Cmd") with
        | .error e => .error e
        | .ok v => .ok (!pyTruthy v)
      else .ok false
    match lhs with
    | .error e => .error e
    | .ok true => rowFixGo row (if hasCmd then S "Cmd" else S "CMD")
    | .ok false =>
      match pyInStr (S "CMD") row with
      | .error e => .error e
      | .ok hasCMD =>
        let rhs : Except PyErr Bool :=
          if hasCMD then
            match pySubscript row (S "CMD") with
            | .error e => .error e
            | .ok v => .ok (!pyTruthy v)
          else .ok false
        match rhs with
        | .error e => .error e
        | .ok true => rowFixGo row (if hasCmd then S "Cmd" else S "CMD")
        | .ok false => .ok row
where
  /-- The body guarded by the condition: `description = row.get('Description','')`,
  scan `COMMANDS`, and assign `row[cmd_key]` on the first match. -/
  rowFixGo (row : PyVal) (cmdKey : Str) : Except PyErr PyVal :=
    match pyGet row (S "Description") (.str []) with
    | .error e => .error e
    | .ok desc =>
      match findCmdCode desc COMMANDS with
      | .error e => .error e
      | .ok none => .ok row
      | .ok (some code) =>
        match row with
        | .obj l => .ok (.obj (assocSet cmdKey (.str code) l))
        | _ => .error (.typeError (S "object does not support item assignment"))

/-- `Except`-valued map over a list (left-to-right, first error wins). -/
def mapE {α β : Type} (f : α → Except PyErr β) : List α → Except PyErr (List β)
  | [] => .ok []
  | x :: xs =>
    match f x with
    | .error e => .error e
    | .ok y => (mapE f xs).map (y :: ·)

/-- `for row in data: …; return data`.  Iterating a list visits its
elements; a dict visits its keys (strings, which the loop body leaves
unchanged unless it raises); a string visits its characters as one-character
strings; anything else raises `TypeError`. -/
def postRows (data : PyVal) : Except PyErr PyVal :=
  match data with
  | .arr l => (mapE rowFix l).map .arr
  | .obj l =>
    match mapE (fun p => rowFix (.str p.1)) l with
    | .error e => .error e
    | .ok _ => .ok (.obj l)
  | .str s =>
    match mapE (fun c => rowFix (.str [c])) s with
    | .error e => .error e
    | .ok _ => .ok (.str s)
  | _ => .error (.typeError (S "object is not iterable"))

/-- `extract_command_sequence` of `utils/text_parser.py`.  The result is the
Python return value (which the source does not constrain to be a list); an
`.error` is an exception escaping the function — only `json.JSONDecodeError`
(here: every `jsonLoads` failure) is caught by its two handlers. -/
def extract_command_sequence (text : Str) : Except PyErr PyVal :=
  match ecsContent text with
  | none => .error (.typeError (S "expected string or bytes-like object"))
  | some c0 =>
    let c := pyStrip (stripFenceLines c0)
    match jsonLoads c with
    | .ok data => postRows data
    | .error _ =>
      match bracketInner c with
      | some inner =>
        match jsonLoads ('[' :: inner ++ [']']) with
        | .ok data => postRows data
        | .error _ => .ok (.arr [])
      | none => .ok (.arr [])

/-! ### `format_parameter_text` and `extract_error_message` (`utils/text_parser.py`) -/

/-- Decimal digit character. -/
def digitCh (n : Nat) : Char :=
  match n with
  | 0 => '0' | 1 => '1' | 2 => '2' | 3 => '3' | 4 => '4'
  | 5 => '5' | 6 => '6' | 7 => '7' | 8 => '8' | _ => '9'

def natToStrGo : Nat → Nat → Str → Str
  | 0, _, acc => acc
  | fuel + 1, n, acc =>
    if n < 10 then digitCh n :: acc
    else natToStrGo fuel (n / 10) (digitCh (n % 10) :: acc)

/-- Decimal rendering of a natural number. -/
def natToStr (n : Nat) : Str := natToStrGo (n + 1) n []

def padZeros (k : Nat) (s : Str) : Str := List.replicate (k - s.length) '0' ++ s

/-- `f"{q:.kf}"` on an exact rational: round to `k` places (ties to even,
as float formatting does on the halfway decimals) and render with a fixed
number of fraction digits.  This models Python's float formatting exactly on
exactly-representable values; no theorem below depends on its output. -/
def decRender (q : Rat) (k : Nat) : Str :=
  let n0 : Rat := |q| * (10 : Rat) ^ k
  let fl : Int := n0.floor
  let frac : Rat := n0 - (fl : Rat)
  let r : Int :=
    if frac > 1/2 then fl + 1
    else if frac < 1/2 then fl
    else if fl % 2 = 0 then fl else fl + 1
  let m : Nat := r.toNat
  let ip : Nat := m / 10 ^ k
  let fp : Nat := m % 10 ^ k
  (if q < 0 && m ≠ 0 then ['-'] else []) ++ natToStr ip ++
    (if k = 0 then [] else '.' :: padZeros k (natToStr fp))

/-- The unit suffix `format_parameter_text` appends to a float, chosen by
case-sensitive substring tests on the parameter name. -/
def unitSuffix (key : Str) : Str :=
  if containsSubCS (S "Length") key || containsSubCS (S "Diameter") key then S " mm"
  else if containsSubCS (S "Force") key || containsSubCS (S "Load") key then S " N"
  else if containsSubCS (S "Rate") key then S " N/mm"
  else []

/-- Python `str(value)` for the values that can sit in a parameter
dictionary.  Container reprs are abbreviated (no claim formats one). -/
def pyStrVal : PyVal → Str
  | .str s => s
  | .null => S "None"
  | .bool true => S "True"
  | .bool false => S "False"
  | .num q => decRender q 1
  | .nan => S "nan"
  | .inf true => S "inf"
  | .inf false => S "-inf"
  | .arr _ => S "list-repr"
  | .obj _ => S "dict-repr"

/-- One formatted line value of `format_parameter_text`: floats get
magnitude-scaled precision plus an inferred unit, everything else is
`str(value)`. -/
def fmtVal (key : Str) (v : PyVal) : Str :=
  match v with
  | .num q =>
    (if q < (1 : Rat) / 10 then decRender q 3
     else if q < 1 then decRender q 2
     else decRender q 1) ++ unitSuffix key
  | w => pyStrVal w

/-- `format_parameter_text` of `utils/text_parser.py`: one `Key: value`
line per parameter, skipping `Timestamp`, joined with newlines. -/
def format_parameter_text (params : List (Str × PyVal)) : Str :=
  List.intercalate ['\n']
    ((params.filterMap fun p =>
      if p.1 = S "Timestamp" then none
      else some (p.1 ++ S ": " ++ fmtVal p.1 p.2)))

def isQuoteCh (c : Char) : Bool := c = '"' || c = '\''

/-- Match of `lit["\']?\s*:\s*["\']([^"\']+)["\']` at one position (the
first two `extract_error_message` patterns, `re.IGNORECASE`).  The optional
quote is consumed greedily; leaving it unconsumed always fails (a quote is
neither whitespace nor `:`), so the greedy choice is exact. -/
def quotedCapAt (lit : String) (s : Str) : Option Str :=
  (litCI (S lit) s).bind fun t0 =>
  let t1 := match t0 with
    | c :: r => if isQuoteCh c then r else t0
    | [] => t0
  match dropSpaces t1 with
  | ':' :: t3 =>
    match dropSpaces t3 with
    | c :: t5 =>
      if isQuoteCh c then
        let cap := t5.takeWhile (fun d => !isQuoteCh d)
        if cap.isEmpty then none
        else if (t5.drop cap.length).isEmpty then none
        else some cap
      else none
    | [] => none
  | _ => none

/-- Match of `lit\s*(.+?)(?:\n|$)` at one position (the last two
`extract_error_message` patterns).  With text after the whitespace run the
greedy `\s*` swallows the run and the lazy capture extends to the next
newline or the end; with only whitespace left the engine backtracks and the
first success captures the last non-newline whitespace character (which the
caller strips to the empty string). -/
def lineCapAt (lit : String) (s : Str) : Option Str :=
  (litCI (S lit) s).bind fun t =>
  let ws := t.takeWhile isPySpace
  match t.drop ws.length with
  | c :: r => some (c :: r.takeWhile (· ≠ '\n'))
  | [] =>
    match ws.reverse.dropWhile (· = '\n') with
    | c :: _ => some [c]
    | [] => none

/-- `extract_error_message` of `utils/text_parser.py`: the four patterns are
tried in order over the whole text; the first one that matches anywhere
wins, and its capture is returned stripped (possibly empty). -/
def extract_error_message (s : Str) : Str :=
  match scanPos (quotedCapAt "error") s with
  | some c => pyStrip c
  | none =>
    match scanPos (quotedCapAt "message") s with
    | some c => pyStrip c
    | none =>
      match scanPos (lineCapAt "ERROR:") s with
      | some c => pyStrip c
      | none =>
        match scanPos (lineCapAt "Exception:") s with
        | some c => pyStrip c
        | none => []

/-! ### DataFrame model and column reconciliation (`utils/api_client.py`) -/

/-- A pandas column label: a string, or the integer labels pandas invents
for list/scalar records. -/
inductive ColKey where
  | s : Str → ColKey
  | i : Nat → ColKey
  deriving DecidableEq

/-- The slice of a pandas DataFrame the worker observes: ordered column
labels and rows of cells aligned with them (`none` = `NaN` for a missing
field). -/
structure Df where
  cols : List ColKey
  rows : List (List (Option PyVal))

/-- `pd.DataFrame()`. -/
def emptyDf : Df := ⟨[], []⟩

/-- Accumulate object keys in first-appearance order across records. -/
def addNewKeys (acc : List Str) (keys : List Str) : List Str :=
  keys.foldl (fun a k => if a.contains k then a else a ++ [k]) acc

/-- Is the value a pandas "scalar" record (not a dict or list)? -/
def isScalarVal : PyVal → Bool
  | .obj _ => false
  | .arr _ => false
  | _ => true

/-- Is the value a dict? -/
def isObjVal : PyVal → Bool
  | .obj _ => true
  | _ => false

/-- Is the value a list? -/
def isArrVal : PyVal → Bool
  | .arr _ => true
  | _ => false

/-- `pd.DataFrame(data)` for a list of records: dict records give string
columns in first-appearance key order with `NaN` for missing keys; list
records give integer columns `0..`; scalar records give the single integer
column `0`.  A mix of record kinds is modelled as a constructor error — no
claim reaches that case (`extract_command_sequence` output that feeds this
constructor is homogeneous in every claim). -/
def dfFromData (l : List PyVal) : Except PyErr Df :=
  if l.all isObjVal then
    let objs := l.map fun v => match v with | .obj r => r | _ => []
    let cols := objs.foldl (fun acc r => addNewKeys acc (r.map Prod.fst)) []
    .ok ⟨cols.map ColKey.s, objs.map fun r => cols.map fun k => r.lookup k⟩
  else if l.all isScalarVal then
    .ok ⟨[ColKey.i 0], l.map fun v => [some v]⟩
  else if l.all isArrVal then
    let rows := l.map fun v => match v with | .arr r => r | _ => []
    let width := rows.foldl (fun m r => max m r.length) 0
    .ok ⟨(List.range width).map ColKey.i,
         rows.map fun r => (List.range width).map fun j => r.get? j⟩
  else .error (.valueError (S "mixed record kinds"))

/-- `pd.DataFrame(data)` for the values `if data:` lets through: a list
builds records; a dict of equal-length lists builds columns; any other
truthy value makes the constructor raise `ValueError`. -/
def dfFromPyVal (v : PyVal) : Except PyErr Df :=
  match v with
  | .arr l => dfFromData l
  | .obj l =>
    if l.all (fun p => isArrVal p.2) then
      let colvals := l.map fun p => (p.1, match p.2 with | .arr r => r | _ => [])
      match colvals.head? with
      | none => .ok ⟨[], []⟩
      | some h =>
        if colvals.all (fun p => p.2.length = h.2.length) then
          .ok ⟨colvals.map (fun p => ColKey.s p.1),
               (List.range h.2.length).map fun i => colvals.map fun p => p.2.get? i⟩
        else .error (.valueError (S "arrays must all be same length"))
    else .error (.valueError (S "scalar values require an index"))
  | _ => .error (.valueError (S "DataFrame constructor not properly called"))

def Df.hasCol (df : Df) (c : ColKey) : Bool := df.cols.contains c

/-- `df.rename(columns={from: to})`: relabel matching columns, cells
untouched. -/
def renameCol (src dst : ColKey) (df : Df) : Df :=
  ⟨df.cols.map (fun c => if c = src then dst else c), df.rows⟩

/-- `df[col] = ""`: append a column whose every cell is the given value. -/
def addColWith (df : Df) (c : ColKey) (v : PyVal) : Df :=
  ⟨df.cols ++ [c], df.rows.map (· ++ [some v])⟩

/-- `df[sel]`: reorder/select columns by label (every label requested is
present at the worker's call site, since missing ones were just added). -/
def selectCols (df : Df) (sel : List ColKey) : Df :=
  ⟨sel, df.rows.map fun row => sel.map fun c => ((df.cols.zip row).lookup c).getD none⟩

/-- The worker's `required_columns`. -/
def required_columns : List Str :=
  [S "Row", S "CMD", S "Description", S "Condition", S "Unit",
   S "Tolerance", S "Speed rpm"]

/-- The column-reconciliation block of `APIClientWorker.run`
(`utils/api_client.py` lines 167–184): rename `Cmd` to `CMD` when `CMD` is
absent, rename `Speed` to `Speed rpm` when `Speed rpm` is absent, insert
every missing required column with empty-string cells, and select the seven
required columns in fixed order. -/
def reconcileDf (df0 : Df) : Df :=
  let df1 :=
    if df0.hasCol (.s (S "Cmd")) && !df0.hasCol (.s (S "CMD")) then
      renameCol (.s (S "Cmd")) (.s (S "CMD")) df0
    else df0
  let df2 :=
    if df1.hasCol (.s (S "Speed")) && !df1.hasCol (.s (S "Speed rpm")) then
      renameCol (.s (S "Speed")) (.s (S "Speed rpm")) df1
    else df1
  let df3 := required_columns.foldl
    (fun d c => if d.hasCol (.s c) then d else addColWith d (.s c) (.str [])) df2
  selectCols df3 (required_columns.map ColKey.s)

/-! ### The request pipeline: `APIClientWorker.run` (`utils/api_client.py`)

The outbound HTTP exchange is abstracted by `env`: attempt `i` either raises
a `requests.exceptions.RequestException` at `post`/`raise_for_status`
(`.exn msg`, `msg` = `str(e)`), raises `ValueError` in `response.json()`
(`.badJson msg`), or delivers a parsed response body (`.json v`).  The
cooperative cancellation flag is abstracted by `flags`: the worker reads
`self.is_cancelled` at the top of each iteration and (after a transport
error that is not on the last attempt) once more in the backoff condition;
`flags k` is the value seen by the `k`-th read.  The composed prompt,
payload and `request_history` affect only the outbound request, which `env`
abstracts, so they are not materialised. -/

inductive Attempt where
  | exn : Str → Attempt
  | badJson : Str → Attempt
  | json : PyVal → Attempt

/-- `response_json['choices'][0].get('message', {}).get('content', '')`. -/
def getContent (v : PyVal) : Except PyErr PyVal :=
  match pySubscript v (S "choices") with
  | .error e => .error e
  | .ok ch =>
    match pySubscriptZero ch with
    | .error e => .error e
    | .ok c0 =>
      match pyGet c0 (S "message") (.obj []) with
      | .error e => .error e
      | .ok msg => pyGet msg (S "content") (.str [])

/-- How the retry loop ended. -/
inductive LoopExit where
  | cancelled : LoopExit
  | response : PyVal → LoopExit
  | exhausted : LoopExit
  | parseBrk : LoopExit
  | crashed : PyErr → LoopExit

/-- Observable trace of the retry loop: its exit, the final
`error_message`, the progress/status/sleep emissions, the number of send
attempts, the chat memory afterwards, and whether a response was received
(the point at which the source appends to `chat_memory`). -/
structure LoopOut where
  exit : LoopExit
  errMsg : Str
  progress : List Nat
  statuses : List Str
  sleeps : List Nat
  attempts : Nat
  memory : List Str
  received : Bool

/-- Prefix this iteration's emissions onto the remainder of the loop. -/
def LoopOut.pre (p : List Nat) (st : List Str) (sl : List Nat) (a : Nat) (o : LoopOut) : LoopOut :=
  { o with progress := p ++ o.progress, statuses := st ++ o.statuses,
           sleeps := sl ++ o.sleeps, attempts := a + o.attempts }

/-- `chat_memory` bound: `if len(...) > 10: ... = ...[-10:]`. -/
def trimMemory (mem : List Str) : List Str :=
  if mem.length > 10 then mem.drop (mem.length - 10) else mem

/-- The retry loop `for attempt in range(max_retries)` of
`APIClientWorker.run`.  `remaining` counts iterations still allowed
(`run` starts it at `mr` with `attempt = 0`), `rIdx` numbers the
cancellation-flag reads, `err`/`mem` thread `error_message`/`chat_memory`. -/
def loopGo (pt : Str) (env : Nat → Attempt) (flags : Nat → Bool) (mr : Nat) :
    Nat → Nat → Nat → Str → List Str → LoopOut
  | 0, _, _, err, mem => ⟨.exhausted, err, [], [], [], 0, mem, false⟩
  | r + 1, attempt, rIdx, err, mem =>
    if flags rIdx then ⟨.cancelled, err, [], [], [], 0, mem, false⟩
    else
      let sendStatus := S "Sending request (attempt " ++ natToStr (attempt + 1) ++
        S "/" ++ natToStr mr ++ S ")..."
      let pEmit := 20 + attempt * 15
      match env attempt with
      | .exn m =>
        let err' := S "Request error: " ++ m
        if attempt < mr - 1 then
          if flags (rIdx + 1) then
            LoopOut.pre [pEmit] [sendStatus, err'] [] 1
              (loopGo pt env flags mr r (attempt + 1) (rIdx + 2) err' mem)
          else
            let bo := 2 ^ attempt
            LoopOut.pre [pEmit] [sendStatus, err',
                S "Retrying in " ++ natToStr bo ++ S " seconds..."] [bo] 1
              (loopGo pt env flags mr r (attempt + 1) (rIdx + 2) err' mem)
        else
          LoopOut.pre [pEmit] [sendStatus, err'] [] 1
            (loopGo pt env flags mr r (attempt + 1) (rIdx + 1) err' mem)
      | .badJson m =>
        let err' := S "Response parsing error: " ++ m
        ⟨.parseBrk, err', [pEmit], [sendStatus, err'], [], 1, mem, false⟩
      | .json v =>
        match getContent v with
        | .ok rt =>
          ⟨.response rt, err, [pEmit, 70],
           [sendStatus, S "Processing response..."], [], 1,
           trimMemory (mem ++ [pt]), true⟩
        | .error e =>
          if e.caught then
            let err' := S "Response parsing error: " ++ e.msg
            ⟨.parseBrk, err', [pEmit, 70],
             [sendStatus, S "Processing response...", err'], [], 1, mem, false⟩
          else
            ⟨.crashed e, err, [pEmit, 70],
             [sendStatus, S "Processing response..."], [], 1, mem, false⟩

/-- Observable outcome of one `APIClientWorker.run` call: the `finished`
emission (`none` when an uncaught exception kills the worker before it),
the chat memory afterwards, the progress/status/sleep traces, the number of
send attempts, whether the run exited through a cancellation `return`, and
whether a response was received. -/
structure RunResult where
  outcome : Option (Df × Str)
  memory : List Str
  progress : List Nat
  statuses : List Str
  sleeps : List Nat
  attempts : Nat
  cancelledExit : Bool
  received : Bool

/-- The `generation_indicators` list of `APIClientWorker.run`. -/
def generation_indicators : List Str :=
  [S "generate", S "create", S "make", S "new sequence", S "test sequence",
   S "spring test", S "compression test", S "tension test",
   S "free length", S "wire diameter", S "outer diameter", S "spring rate"]

/-- `any(indicator in original_prompt.lower() for indicator in generation_indicators)`. -/
def isGenPrompt (p : Str) : Bool :=
  generation_indicators.any fun ind => containsSubCS ind (lowerStr p)

/-- Parameter dictionaries as the worker receives them. -/
abbrev Params := List (Str × PyVal)

/-- `self.parameters.get('prompt', '')`. -/
def promptVal (params : Params) : PyVal :=
  (params.lookup (S "prompt")).getD (.str [])

/-- The degenerate one-row chat table
`pd.DataFrame([{"Row": "CHAT", "CMD": "CHAT", "Description": response_text}])`. -/
def chatDf (rt : PyVal) : Df :=
  ⟨[.s (S "Row"), .s (S "CMD"), .s (S "Description")],
   [[some (.str (S "CHAT")), some (.str (S "CHAT")), some rt]]⟩

/-- The generation-path terminal block: on an empty table the failure
message is `error_message or extract_error_message(response_text) or
"Failed to generate sequence"` (calling `extract_error_message` on a
non-string response text raises `TypeError` inside `re.search`); a
populated table is delivered with an empty error message. -/
def finishGeneration (lo : LoopOut) (rt : PyVal) (df : Df)
    (prog : List Nat) (st : List Str) : RunResult :=
  if df.rows.isEmpty then
    if lo.errMsg.isEmpty then
      match rt with
      | .str s =>
        let m := extract_error_message s
        let msg := if m.isEmpty then S "Failed to generate sequence" else m
        ⟨some (df, msg), lo.memory, prog, st, lo.sleeps, lo.attempts, false, lo.received⟩
      | _ => ⟨none, lo.memory, prog, st, lo.sleeps, lo.attempts, false, lo.received⟩
    else
      ⟨some (df, lo.errMsg), lo.memory, prog, st, lo.sleeps, lo.attempts, false, lo.received⟩
  else
    ⟨some (df, []), lo.memory, prog, st, lo.sleeps, lo.attempts, false, lo.received⟩

/-- Everything after the retry loop of `APIClientWorker.run`: the
`progress.emit(80)`, the guarded sequence extraction and table
reconciliation (generation requests with a truthy response text only), the
`progress.emit(100)`, and the path-dependent `finished` emission. -/
def runAfterLoop (isGen : Bool) (lo : LoopOut) : RunResult :=
  let rt : PyVal := match lo.exit with
    | .response v => v
    | _ => .str []
  match lo.exit with
  | .cancelled =>
    ⟨some (emptyDf, S "Operation cancelled"), lo.memory, lo.progress,
     lo.statuses, lo.sleeps, lo.attempts, true, lo.received⟩
  | .crashed _ =>
    ⟨none, lo.memory, lo.progress, lo.statuses, lo.sleeps, lo.attempts,
     false, lo.received⟩
  | _ =>
    let prog80 := lo.progress ++ [80]
    if pyTruthy rt && isGen then
      match (match rt with
             | .str s => extract_command_sequence s
             | _ => Except.error (.typeError (S "expected string or bytes-like object"))) with
      | .error _ =>
        ⟨none, lo.memory, prog80, lo.statuses, lo.sleeps, lo.attempts, false, lo.received⟩
      | .ok data =>
        if pyTruthy data then
          let st90 := lo.statuses ++ [S "Creating result table..."]
          match dfFromPyVal data with
          | .error _ =>
            ⟨none, lo.memory, prog80 ++ [90], st90, lo.sleeps, lo.attempts,
             false, lo.received⟩
          | .ok df0 =>
            finishGeneration lo rt (reconcileDf df0) (prog80 ++ [90, 100]) st90
        else
          finishGeneration lo rt emptyDf (prog80 ++ [100]) lo.statuses
    else if isGen then
      finishGeneration lo rt emptyDf (prog80 ++ [100]) lo.statuses
    else
      ⟨some (chatDf rt, []), lo.memory, prog80 ++ [100], lo.statuses,
       lo.sleeps, lo.attempts, false, lo.received⟩

/-- `APIClientWorker.run` (`utils/api_client.py`).  `params` is
`self.parameters`, `memory0` the client's `chat_memory` on entry, `env` and
`flags` the transport/cancellation abstractions described above.  A prompt
value that is not a string kills the worker at `original_prompt.lower()`
before any emission. -/
def APIClientWorker.run (params : Params) (memory0 : List Str)
    (maxRetries : Nat) (env : Nat → Attempt) (flags : Nat → Bool) : RunResult :=
  let pt := format_parameter_text params
  match promptVal params with
  | .str p =>
    let isGen := isGenPrompt p
    let lo := loopGo pt env flags maxRetries maxRetries 0 0 [] memory0
    let lo' : LoopOut :=
      { lo with progress := 10 :: lo.progress,
                statuses := S "Preparing request..." :: lo.statuses }
    runAfterLoop isGen lo'
  | _ => ⟨none, memory0, [], [], [], 0, false, false⟩

/-! ### Helper lemmas -/

theorem lookup_append_of_ne (k : Str) (l1 l2 : List (Str × PyVal))
    (h : ∀ p ∈ l1, p.1 ≠ k) :
    List.lookup k (l1 ++ l2) = List.lookup k l2 := by
  induction l1 with
  | nil => rfl
  | cons a t ih =>
    have h1 : (a.1 == k) = false := beq_eq_false_iff_ne.mpr (h a (by simp))
    have h2 : (k == a.1) = false := beq_eq_false_iff_ne.mpr (Ne.symm (h a (by simp)))
    simp only [List.cons_append, List.lookup, h1, h2]
    exact ih fun p hp => h p (by simp [hp])

/-- Every key the pattern loop can insert is a `PARAMETER_PATTERNS` name. -/
theorem patPart_fst (text : Str) :
    ∀ p ∈ PARAMETER_PATTERNS.filterMap
      (fun q => (q.2 text).map fun cap => (q.1, convParam q.1 cap)),
      p.1 ∈ PARAMETER_PATTERNS.map Prod.fst := by
  intro p hp
  rw [List.mem_filterMap] at hp
  obtain ⟨q, hq, hmap⟩ := hp
  rw [Option.map_eq_some'] at hmap
  obtain ⟨cap, _, rfl⟩ := hmap
  exact List.mem_map_of_mem Prod.fst hq

theorem pattern_names_ne_tt :
    ∀ k ∈ PARAMETER_PATTERNS.map Prod.fst, k ≠ S "Test Type" := by
  intro k hk
  simp only [PARAMETER_PATTERNS, List.map_cons, List.map_nil, List.mem_cons,
    List.not_mem_nil, or_false] at hk
  rcases hk with rfl | rfl | rfl | rfl | rfl | rfl | rfl | rfl | rfl | rfl | rfl <;> decide

/-- `Test Type` can only come from the test-type branch: the pattern loop
and the timestamp never touch it. -/
theorem lookup_tt_extract (text now : Str) :
    List.lookup (S "Test Type") (extract_parameters text now) =
      List.lookup (S "Test Type")
        ((if compSearch text then [(S "Test Type", PyVal.str (S "Compression"))]
          else if tensSearch text then [(S "Test Type", PyVal.str (S "Tension"))]
          else []) : List (Str × PyVal)) := by
  have hskip : List.lookup (S "Test Type")
      (PARAMETER_PATTERNS.filterMap
        (fun q => (q.2 text).map fun cap => (q.1, convParam q.1 cap)) ++
       [(S "Timestamp", PyVal.str now)]) = none := by
    rw [lookup_append_of_ne _ _ _
      (fun p hp => pattern_names_ne_tt p.1 (patPart_fst text p hp))]
    simp only [List.lookup,
      show (S "Timestamp" == S "Test Type") = false from by decide,
      show (S "Test Type" == S "Timestamp") = false from by decide]
  unfold extract_parameters
  cases hc : compSearch text <;> cases ht : tensSearch text <;>
    simp only [hc, ht, Bool.false_eq_true, if_true, if_false,
      List.cons_append, List.nil_append, List.lookup, List.append_assoc,
      beq_self_eq_true, hskip]

/-! ### Claims C5 and C10 -/

/-- C5: on `utils/text_parser.py`'s `extract_parameters` (the
ParameterExtractor the application uses), an utterance matching the
tension-class keyword regex and not the compression-class regex yields
`Test Type = "Tension"`; matching only the compression-class regex yields
`Test Type = "Compression"`; matching neither leaves `Test Type` absent
from the returned parameter set — never defaulted. -/
theorem C5_test_type_classes (text now : Str) :
    (tensSearch text = true → compSearch text = false →
      List.lookup (S "Test Type") (extract_parameters text now) =
        some (.str (S "Tension"))) ∧
    (compSearch text = true → tensSearch text = false →
      List.lookup (S "Test Type") (extract_parameters text now) =
        some (.str (S "Compression"))) ∧
    (compSearch text = false → tensSearch text = false →
      List.lookup (S "Test Type") (extract_parameters text now) = none) := by
  refine ⟨fun ht hc => ?_, fun hc _ => ?_, fun hc ht => ?_⟩ <;>
    rw [lookup_tt_extract] <;> simp [hc, *, List.lookup]

/-- C5 witness: concrete utterances exercising all three branches. -/
theorem C5_test_type_classes_witness :
    (tensSearch (S "pull the spring") = true ∧
     compSearch (S "pull the spring") = false ∧
     List.lookup (S "Test Type") (extract_parameters (S "pull the spring") (S "t")) =
       some (.str (S "Tension"))) ∧
    (compSearch (S "push it down") = true ∧
     tensSearch (S "push it down") = false ∧
     List.lookup (S "Test Type") (extract_parameters (S "push it down") (S "t")) =
       some (.str (S "Compression"))) ∧
    (compSearch (S "hello world") = false ∧
     tensSearch (S "hello world") = false ∧
     List.lookup (S "Test Type") (extract_parameters (S "hello world") (S "t")) = none) :=
  ⟨⟨by decide, by decide,
    (C5_test_type_classes (S "pull the spring") (S "t")).1 (by decide) (by decide)⟩,
   ⟨by decide, by decide,
    (C5_test_type_classes (S "push it down") (S "t")).2.1 (by decide) (by decide)⟩,
   ⟨by decide, by decide,
    (C5_test_type_classes (S "hello world") (S "t")).2.2 (by decide) (by decide)⟩⟩

/-- C10: an utterance matching both keyword classes gets
`Test Type = "Compression"` — the compression check runs first, so the two
classes are not mutually exclusive over inputs. -/
theorem C10_compression_precedence (text now : Str)
    (hc : compSearch text = true) (_ht : tensSearch text = true) :
    List.lookup (S "Test Type") (extract_parameters text now) =
      some (.str (S "Compression")) := by
  rw [lookup_tt_extract]; simp [hc, List.lookup]

/-- C10 witness: "press and pull it" matches both classes and yields
Compression. -/
theorem C10_compression_precedence_witness :
    compSearch (S "press and pull it") = true ∧
    tensSearch (S "press and pull it") = true ∧
    List.lookup (S "Test Type") (extract_parameters (S "press and pull it") (S "t")) =
      some (.str (S "Compression")) :=
  ⟨by decide, by decide,
   C10_compression_precedence (S "press and pull it") (S "t") (by decide) (by decide)⟩

/-! ### Claim C6 -/

/-- Generalisation of `patPart_fst` to any pattern table. -/
theorem patPart_fst_gen (pats : List (Str × (Str → Option Str))) (text : Str) :
    ∀ p ∈ pats.filterMap
      (fun q => (q.2 text).map fun cap => (q.1, convParam q.1 cap)),
      p.1 ∈ pats.map Prod.fst := by
  intro p hp
  rw [List.mem_filterMap] at hp
  obtain ⟨q, hq, hmap⟩ := hp
  rw [Option.map_eq_some'] at hmap
  obtain ⟨cap, _, rfl⟩ := hmap
  exact List.mem_map_of_mem Prod.fst hq

/-- The tail of `PARAMETER_PATTERNS` after `Free Length`. -/
def patternsAfterFL : List (Str × (Str → Option Str)) :=
  [(S "Part Number", searchPart), (S "Model Number", searchModel),
   (S "Wire Diameter", searchWire), (S "Outer Diameter", searchOuter),
   (S "Inner Diameter", searchInner), (S "Spring Rate", searchRate),
   (S "Test Load", searchLoad), (S "Deflection", searchDefl),
   (S "Working Length", searchWork), (S "Customer ID", searchCust)]

theorem patterns_split :
    PARAMETER_PATTERNS = (S "Free Length", searchFL) :: patternsAfterFL := rfl

theorem tail_names_ne_fl :
    ∀ k ∈ patternsAfterFL.map Prod.fst, k ≠ S "Free Length" := by
  intro k hk
  simp only [patternsAfterFL, List.map_cons, List.map_nil, List.mem_cons,
    List.not_mem_nil, or_false] at hk
  rcases hk with rfl | rfl | rfl | rfl | rfl | rfl | rfl | rfl | rfl | rfl <;> decide

/-- The keys the test-type branch can produce. -/
theorem ttPart_keys (b1 b2 : Bool) :
    ∀ p ∈ ((if b1 = true then [(S "Test Type", PyVal.str (S "Compression"))]
        else if b2 = true then [(S "Test Type", PyVal.str (S "Tension"))]
        else []) : List (Str × PyVal)), p.1 = S "Test Type" := by
  cases b1 <;> cases b2 <;> intro p hp <;> simp at hp <;>
    simp [hp]

/-- `Free Length` in the result of `extract_parameters` is exactly the
image of the Free Length pattern's search: the test-type branch, the later
patterns and the timestamp use other keys, and the Free Length pattern is
first in the table. -/
theorem lookup_fl_extract (text now : Str) :
    List.lookup (S "Free Length") (extract_parameters text now) =
      (searchFL text).map fun cap => convParam (S "Free Length") cap := by
  have hTT : ∀ p ∈ ((if compSearch text = true then [(S "Test Type", PyVal.str (S "Compression"))]
      else if tensSearch text = true then [(S "Test Type", PyVal.str (S "Tension"))]
      else []) : List (Str × PyVal)), p.1 ≠ S "Free Length" := by
    intro p hp
    rw [ttPart_keys (compSearch text) (tensSearch text) p hp]
    decide
  have hskip : List.lookup (S "Free Length")
      (patternsAfterFL.filterMap
        (fun q => (q.2 text).map fun cap => (q.1, convParam q.1 cap)) ++
       [(S "Timestamp", PyVal.str now)]) = none := by
    rw [lookup_append_of_ne _ _ _
      (fun p hp => tail_names_ne_fl p.1 (patPart_fst_gen patternsAfterFL text p hp))]
    simp only [List.lookup,
      show (S "Timestamp" == S "Free Length") = false from by decide,
      show (S "Free Length" == S "Timestamp") = false from by decide]
  unfold extract_parameters
  rw [List.append_assoc, lookup_append_of_ne _ _ _ hTT, patterns_split,
    List.filterMap_cons]
  dsimp only
  cases hfl : searchFL text with
  | none => exact hskip
  | some cap =>
    simp only [Option.map_some', List.cons_append, List.lookup, beq_self_eq_true]

/-- The Free Length pattern matches at the head of `free length 50mm⧺q` for
every continuation `q`, capturing `50` (the match never inspects `q`). -/
theorem matchFL_target (q : Str) :
    matchFLAt (S "free length 50mm" ++ q) = some (S "50") := rfl

/-- `re.search` skips positions where the pattern fails. -/
theorem scanPos_append_none (m : Str → Option Str) (p rest : Str)
    (h : ∀ i < p.length, m ((p ++ rest).drop i) = none) :
    scanPos m (p ++ rest) = scanPos m rest := by
  induction p with
  | nil => rfl
  | cons c t ih =>
    have h0 : m (c :: (t ++ rest)) = none := by simpa using h 0 (by simp)
    have step : scanPos m ((c :: t) ++ rest) = scanPos m (t ++ rest) := by
      rw [List.cons_append]
      show (match m (c :: (t ++ rest)) with
            | some r => some r
            | none => scanPos m (t ++ rest)) = scanPos m (t ++ rest)
      rw [h0]
    rw [step]
    exact ih fun i hi => by
      have := h (i + 1) (by simpa using Nat.succ_lt_succ hi)
      simpa using this

/-- A match at the current position is the search result. -/
theorem scanPos_hit (m : Str → Option Str) (s c : Str) (h : m s = some c) :
    scanPos m s = some c := by
  cases s with
  | nil => simpa [scanPos] using h
  | cons a t => simp [scanPos, h]

/-- C6 (amended): for every utterance of the form `p ⧺ "free length 50mm" ⧺ q`
in which the Free Length pattern matches at no position inside `p` (so the
leftmost match is the displayed occurrence), `extract_parameters` returns
`Free Length = 50.0`.  As stated — for *every* utterance containing the
substring, regardless of other text — the claim fails, because `re.search`
returns the first match in the text (see the counterexample). -/
theorem C6_free_length_50 (p q now : Str)
    (h : ∀ i < p.length,
      matchFLAt ((p ++ (S "free length 50mm" ++ q)).drop i) = none) :
    List.lookup (S "Free Length")
      (extract_parameters (p ++ S "free length 50mm" ++ q) now) =
      some (.num 50) := by
  rw [List.append_assoc, lookup_fl_extract]
  show (scanPos matchFLAt (p ++ (S "free length 50mm" ++ q))).map _ = _
  rw [scanPos_append_none matchFLAt p _ h,
    scanPos_hit matchFLAt _ _ (matchFL_target q)]
  rfl

/-- C6 witness: the bare utterance "free length 50mm" yields 50.0. -/
theorem C6_free_length_50_witness :
    List.lookup (S "Free Length")
      (extract_parameters (S "free length 50mm") (S "t")) = some (.num 50) := by
  have h := C6_free_length_50 [] [] (S "t") (fun i hi => absurd hi (Nat.not_lt_zero i))
  simpa using h

/-- C6 counterexample: an utterance containing "free length 50mm" whose
earlier text also matches the pattern yields the earlier value 30.0, not
50.0 — the claim's "regardless of any other text" fails. -/
theorem C6_free_length_50_counterexample :
    containsSubCS (S "free length 50mm")
      (S "free length 30 and free length 50mm") = true ∧
    List.lookup (S "Free Length")
      (extract_parameters (S "free length 30 and free length 50mm") (S "t")) =
      some (.num 30) := ⟨by decide, by rfl⟩

/-! ### Claim C2 -/

/-- C2: `extract_command_sequence` is *not* total on arbitrary input text.
On the input `"5"` no fenced block or bracketed array is found, the raw
text parses as the JSON number `5`, and the post-processing loop
`for row in data:` raises an uncaught `TypeError` — contradicting the
contract that malformed input degrades to an empty result.  (Inputs parsing
to a JSON dict or string similarly return that dict or string rather than a
row list.) -/
theorem C2_parser_raises_on_nonarray :
    extract_command_sequence (S "5") =
      .error (.typeError (S "object is not iterable")) := by rfl


/-! ### Claim C9 -/

/-- A one-row DataFrame as an association list of columns to cells. -/
def rowDf (A : List (ColKey × Option PyVal)) : Df :=
  ⟨A.map Prod.fst, [A.map Prod.snd]⟩

theorem zip_fst_snd {α β : Type} (A : List (α × β)) :
    (A.map Prod.fst).zip (A.map Prod.snd) = A := by
  induction A with
  | nil => rfl
  | cons a t ih => simp [ih]

theorem selectCols_rowDf (A : List (ColKey × Option PyVal)) (sel : List ColKey) :
    selectCols (rowDf A) sel =
      ⟨sel, [sel.map fun c => (A.lookup c).getD none]⟩ := by
  unfold selectCols rowDf
  simp [zip_fst_snd]

theorem renameCol_rowDf (src dst : ColKey) (A : List (ColKey × Option PyVal)) :
    renameCol src dst (rowDf A) =
      rowDf (A.map fun p => (if p.1 = src then dst else p.1, p.2)) := by
  unfold renameCol rowDf
  simp only [List.map_map, Function.comp]
  rfl

theorem addColWith_rowDf (A : List (ColKey × Option PyVal)) (c : ColKey) (v : PyVal) :
    addColWith (rowDf A) c v = rowDf (A ++ [(c, some v)]) := by
  unfold addColWith rowDf
  simp

theorem hasCol_rowDf (A : List (ColKey × Option PyVal)) (c : ColKey) :
    (rowDf A).hasCol c = (A.map Prod.fst).contains c := rfl

theorem contains_iff_memCk (l : List ColKey) (c : ColKey) :
    l.contains c = true ↔ c ∈ l := by
  simp [List.contains, List.elem_iff]

theorem addNewKeys_of_disjoint :
    ∀ (keys acc : List Str), keys.Nodup → (∀ k ∈ keys, k ∉ acc) →
      addNewKeys acc keys = acc ++ keys := by
  intro keys
  induction keys with
  | nil => intro acc _ _; simp [addNewKeys]
  | cons k ks ih =>
    intro acc hnd hdis
    have hk : k ∉ acc := hdis k (by simp)
    have step : addNewKeys acc (k :: ks) = addNewKeys (acc ++ [k]) ks := by
      simp [addNewKeys, hk]
    rw [step, ih (acc ++ [k]) (List.Nodup.of_cons hnd)]
    · simp
    · intro k' hk'
      have h2 : k' ≠ k := by
        intro he
        subst he
        exact (List.nodup_cons.mp hnd).1 hk'
      simp [hdis k' (by simp [hk']), h2]

/-- `dfFromData` on one duplicate-free record. -/
theorem dfFromData_single (r : List (Str × PyVal))
    (hnd : (r.map Prod.fst).Nodup) :
    dfFromData [.obj r] =
      .ok (rowDf ((r.map Prod.fst).map fun k => (ColKey.s k, r.lookup k))) := by
  unfold dfFromData
  have hobj : ([PyVal.obj r].all isObjVal) = true := by simp [isObjVal]
  rw [if_pos hobj]
  have hkeys : addNewKeys [] (r.map Prod.fst) = r.map Prod.fst :=
    addNewKeys_of_disjoint (r.map Prod.fst) [] hnd (fun k _ => List.not_mem_nil k)
  simp only [List.map_cons, List.map_nil, List.foldl_cons, List.foldl_nil]
  rw [hkeys]
  simp only [rowDf, List.map_map, Function.comp]
  rfl

/-- The `Cmd → CMD` key renaming on a row's keys. -/
def renCmd (k : Str) : Str := if k = S "Cmd" then S "CMD" else k

theorem lookup_ren_cmd (r : List (Str × PyVal)) (keys : List Str)
    (hin : S "Cmd" ∈ keys) (hout : S "CMD" ∉ keys) :
    (keys.map fun k => (ColKey.s (renCmd k), r.lookup k)).lookup
        (ColKey.s (S "CMD")) = some (List.lookup (S "Cmd") r) := by
  induction keys with
  | nil => cases hin
  | cons k ks ih =>
    by_cases hk : k = S "Cmd"
    · subst hk
      simp [List.lookup, renCmd]
    · have hkCMD : k ≠ S "CMD" := fun he => hout (he ▸ List.mem_cons_self k ks)
      have hren : renCmd k = k := by simp [renCmd, hk]
      have hne : (ColKey.s (S "CMD") == ColKey.s (renCmd k)) = false := by
        refine beq_eq_false_iff_ne.mpr ?_
        rw [hren]
        intro he
        rw [ColKey.s.injEq] at he
        exact hkCMD he.symm
      simp only [List.map_cons, List.lookup, hne]
      exact ih ((List.mem_cons.mp hin).resolve_left fun he => hk he.symm)
        (fun h => hout (List.mem_cons_of_mem k h))

theorem lookup_ren_other (r : List (Str × PyVal)) (keys : List Str) (c : Str)
    (hcCmd : c ≠ S "Cmd") (hcCMD : c ≠ S "CMD") :
    (keys.map fun k => (ColKey.s (renCmd k), r.lookup k)).lookup (ColKey.s c) =
      if c ∈ keys then some (List.lookup c r) else none := by
  induction keys with
  | nil => simp
  | cons k ks ih =>
    by_cases hk : k = c
    · subst hk
      have hren : renCmd k = k := by simp [renCmd, hcCmd]
      simp [List.lookup, hren]
    · have hne : (ColKey.s c == ColKey.s (renCmd k)) = false := by
        refine beq_eq_false_iff_ne.mpr ?_
        intro he
        rw [ColKey.s.injEq] at he
        by_cases hkc : k = S "Cmd"
        · rw [hkc] at he
          simp only [renCmd, if_pos rfl] at he
          exact hcCMD he
        · rw [show renCmd k = k from by simp [renCmd, hkc]] at he
          exact hk he.symm
      have hmem : (c ∈ k :: ks) ↔ (c ∈ ks) := by
        rw [List.mem_cons]
        exact or_iff_right (fun he => hk he.symm)
      simp only [List.map_cons, List.lookup, hne, ih, hmem]

theorem mem_ren_cols_iff (keys : List Str) (c : Str)
    (hcCmd : c ≠ S "Cmd") (hcCMD : c ≠ S "CMD") :
    (ColKey.s c ∈ keys.map fun k => ColKey.s (renCmd k)) ↔ c ∈ keys := by
  rw [List.mem_map]
  constructor
  · rintro ⟨k, hk, he⟩
    rw [ColKey.s.injEq] at he
    by_cases hkc : k = S "Cmd"
    · rw [hkc] at he
      simp only [renCmd, if_pos rfl] at he
      exact absurd he hcCMD.symm
    · rw [show renCmd k = k from by simp [renCmd, hkc]] at he
      exact he ▸ hk
  · intro hc
    exact ⟨c, hc, by rw [show renCmd c = c from by simp [renCmd, hcCmd]]⟩

theorem lookup_append_some_ck (l2 : List (ColKey × Option PyVal)) (c : ColKey)
    (v : Option PyVal) :
    ∀ l1 : List (ColKey × Option PyVal), l1.lookup c = some v →
      (l1 ++ l2).lookup c = some v := by
  intro l1
  induction l1 with
  | nil => intro h; cases h
  | cons a t ih =>
    intro h
    by_cases hb : c = a.1
    · have hbeq : (c == a.1) = true := beq_iff_eq.mpr hb
      simp only [List.lookup, hbeq] at h
      simpa only [List.cons_append, List.lookup, hbeq] using h
    · have hbeq : (c == a.1) = false := beq_eq_false_iff_ne.mpr hb
      simp only [List.lookup, hbeq] at h
      simp only [List.cons_append, List.lookup, hbeq]
      exact ih h

theorem lookup_append_none_ck (l2 : List (ColKey × Option PyVal)) (c : ColKey) :
    ∀ l1 : List (ColKey × Option PyVal), l1.lookup c = none →
      (l1 ++ l2).lookup c = l2.lookup c := by
  intro l1
  induction l1 with
  | nil => intro _; rfl
  | cons a t ih =>
    intro h
    by_cases hb : c = a.1
    · have hbeq : (c == a.1) = true := beq_iff_eq.mpr hb
      simp only [List.lookup, hbeq] at h
      exact Option.noConfusion h
    · have hbeq : (c == a.1) = false := beq_eq_false_iff_ne.mpr hb
      simp only [List.lookup, hbeq] at h
      simp only [List.cons_append, List.lookup, hbeq]
      exact ih h

theorem lookup_const_cols (c : Str) (cs : List Str) (v : Option PyVal) :
    (cs.map fun c' => (ColKey.s c', v)).lookup (ColKey.s c) =
      if c ∈ cs then some v else none := by
  induction cs with
  | nil => simp
  | cons k ks ih =>
    by_cases hk : k = c
    · subst hk
      simp [List.lookup]
    · have hne : (ColKey.s c == ColKey.s k) = false := by
        refine beq_eq_false_iff_ne.mpr ?_
        intro he
        rw [ColKey.s.injEq] at he
        exact hk he.symm
      have hmem : (c ∈ k :: ks) ↔ (c ∈ ks) := by
        rw [List.mem_cons]
        exact or_iff_right (fun he => hk he.symm)
      simp only [List.map_cons, List.lookup, hne, ih, hmem]

theorem contains_append_single (A : List (ColKey × Option PyVal)) (c c' : Str)
    (hne : c' ≠ c) (e : Option PyVal) :
    ((A ++ [(ColKey.s c, e)]).map Prod.fst).contains (ColKey.s c') =
      (A.map Prod.fst).contains (ColKey.s c') := by
  have hiff : (ColKey.s c' ∈ (A ++ [(ColKey.s c, e)]).map Prod.fst) ↔
      ColKey.s c' ∈ A.map Prod.fst := by
    simp [hne]
  cases hb : (A.map Prod.fst).contains (ColKey.s c') with
  | true => exact (contains_iff_memCk _ _).mpr (hiff.mpr ((contains_iff_memCk _ _).mp hb))
  | false =>
    have hnm : ColKey.s c' ∉ A.map Prod.fst := fun hm => by
      rw [(contains_iff_memCk _ _).mpr hm] at hb
      cases hb
    cases hb2 : ((A ++ [(ColKey.s c, e)]).map Prod.fst).contains (ColKey.s c') with
    | false => rfl
    | true => exact absurd (hiff.mp ((contains_iff_memCk _ _).mp hb2)) hnm

/-- The missing-column insertion fold on a one-row frame. -/
theorem addMissing_fold (cs : List Str) :
    ∀ A : List (ColKey × Option PyVal), cs.Nodup →
      cs.foldl (fun d c => if d.hasCol (.s c) then d
          else addColWith d (.s c) (.str [])) (rowDf A) =
        rowDf (A ++ (cs.filter fun c =>
            !((A.map Prod.fst).contains (ColKey.s c))).map
            fun c => (ColKey.s c, some (.str []))) := by
  induction cs with
  | nil => intro A _; simp
  | cons c cs' ih =>
    intro A hnd
    rw [List.foldl_cons, List.filter_cons]
    cases hcon : (A.map Prod.fst).contains (ColKey.s c) with
    | true =>
      rw [show ((rowDf A).hasCol (ColKey.s c)) = true from by rw [hasCol_rowDf, hcon],
        if_pos rfl, if_neg (by decide : ¬((!true : Bool) = true))]
      exact ih A (List.Nodup.of_cons hnd)
    | false =>
      rw [show ((rowDf A).hasCol (ColKey.s c)) = false from by rw [hasCol_rowDf, hcon],
        if_neg (by decide : ¬((false : Bool) = true)),
        if_pos (by decide : ((!false : Bool) = true))]
      rw [addColWith_rowDf]
      rw [ih (A ++ [(ColKey.s c, some (PyVal.str []))]) (List.Nodup.of_cons hnd)]
      have hfc : (cs'.filter fun c' =>
            !(((A ++ [(ColKey.s c, some (PyVal.str []))]).map Prod.fst).contains
              (ColKey.s c'))) =
          (cs'.filter fun c' => !((A.map Prod.fst).contains (ColKey.s c'))) := by
        refine List.filter_congr fun c' hc' => ?_
        have hne : c' ≠ c := fun he => (List.nodup_cons.mp hnd).1 (he ▸ hc')
        rw [contains_append_single A c c' hne]
      rw [hfc]
      simp [List.append_assoc]

theorem required_ne_cmd : ∀ c ∈ required_columns, c ≠ S "Cmd" := by
  intro c hc
  simp only [required_columns, List.mem_cons, List.not_mem_nil, or_false] at hc
  rcases hc with rfl | rfl | rfl | rfl | rfl | rfl | rfl <;> decide

theorem lookup_mem_keys (r : List (Str × PyVal)) (c : Str)
    (hmem : c ∈ r.map Prod.fst) : ∃ v, List.lookup c r = some v := by
  induction r with
  | nil => simp only [List.map_nil, List.not_mem_nil] at hmem
  | cons p t ih =>
    by_cases hp : c = p.1
    · exact ⟨p.2, by simp only [List.lookup, beq_iff_eq.mpr hp]⟩
    · have hmem' : c ∈ t.map Prod.fst := by
        rcases List.mem_cons.mp hmem with h | h
        · exact absurd h hp
        · exact h
      obtain ⟨v, hv⟩ := ih hmem'
      exact ⟨v, by simp only [List.lookup, beq_eq_false_iff_ne.mpr hp, hv]⟩

theorem lookup_not_mem_keys (r : List (Str × PyVal)) (c : Str)
    (hmem : c ∉ r.map Prod.fst) : List.lookup c r = none := by
  induction r with
  | nil => rfl
  | cons p t ih =>
    have hp : c ≠ p.1 := fun he => hmem (by
      rw [List.map_cons, he]; exact List.mem_cons_self _ _)
    simp only [List.lookup, beq_eq_false_iff_ne.mpr hp]
    exact ih fun h => hmem (by
      rw [List.map_cons]; exact List.mem_cons_of_mem _ h)

/-- C9: reconciling a one-row table whose row has a `Cmd` key (value `TH`)
and no `CMD` key yields a row with `CMD = TH`; no other field of the row is
lost or altered, every required field absent from the input is inserted
with an empty-string value, and the final column order is the fixed
seven-column order.  The row's keys are assumed to lie in the schema
(required columns plus `Cmd`), which is what the claim's "no other field
lost" and "fixed seven-column order" jointly presuppose. -/
theorem C9_reconcile_single_row (r : List (Str × PyVal))
    (hnd : (r.map Prod.fst).Nodup)
    (hsub : ∀ k ∈ r.map Prod.fst, k ∈ required_columns ∨ k = S "Cmd")
    (hin : S "Cmd" ∈ r.map Prod.fst)
    (hout : S "CMD" ∉ r.map Prod.fst)
    (hTH : List.lookup (S "Cmd") r = some (.str (S "TH"))) :
    (dfFromData [PyVal.obj r]).map reconcileDf =
      .ok ⟨required_columns.map ColKey.s,
        [required_columns.map fun c =>
           if c = S "CMD" then some (PyVal.str (S "TH"))
           else some ((List.lookup c r).getD (.str []))]⟩ := by
  rw [dfFromData_single r hnd]
  show Except.ok (reconcileDf (rowDf ((r.map Prod.fst).map fun k => (ColKey.s k, r.lookup k)))) = _
  have hA0cols : (((r.map Prod.fst).map fun k => (ColKey.s k, r.lookup k)).map Prod.fst)
      = (r.map Prod.fst).map ColKey.s := by
    rw [List.map_map]; rfl
  have h1 : (rowDf ((r.map Prod.fst).map fun k => (ColKey.s k, r.lookup k))).hasCol
      (ColKey.s (S "Cmd")) = true := by
    rw [hasCol_rowDf, hA0cols]
    exact (contains_iff_memCk _ _).mpr (List.mem_map_of_mem ColKey.s hin)
  have h2 : (rowDf ((r.map Prod.fst).map fun k => (ColKey.s k, r.lookup k))).hasCol
      (ColKey.s (S "CMD")) = false := by
    rw [hasCol_rowDf, hA0cols]
    cases hb : ((r.map Prod.fst).map ColKey.s).contains (ColKey.s (S "CMD")) with
    | false => rfl
    | true =>
      obtain ⟨k, hk, he⟩ := List.mem_map.mp ((contains_iff_memCk _ _).mp hb)
      rw [ColKey.s.injEq] at he
      exact absurd (he ▸ hk) hout
  have hA1 : (((r.map Prod.fst).map fun k => (ColKey.s k, r.lookup k)).map
        fun p => (if p.1 = ColKey.s (S "Cmd") then ColKey.s (S "CMD") else p.1, p.2)) =
      (r.map Prod.fst).map fun k => (ColKey.s (renCmd k), r.lookup k) := by
    rw [List.map_map]
    refine List.map_congr_left fun k _ => ?_
    by_cases hkc : k = S "Cmd"
    · simp [hkc, renCmd, Function.comp]
    · simp [renCmd, hkc, Function.comp, ColKey.s.injEq]
  have hA1cols : (((r.map Prod.fst).map fun k => (ColKey.s (renCmd k), r.lookup k)).map Prod.fst)
      = (r.map Prod.fst).map fun k => ColKey.s (renCmd k) := by
    rw [List.map_map]; rfl
  have hsp : (rowDf ((r.map Prod.fst).map fun k => (ColKey.s (renCmd k), r.lookup k))).hasCol
      (ColKey.s (S "Speed")) = false := by
    rw [hasCol_rowDf, hA1cols]
    cases hb : ((r.map Prod.fst).map fun k => ColKey.s (renCmd k)).contains
        (ColKey.s (S "Speed")) with
    | false => rfl
    | true =>
      have hmem := (mem_ren_cols_iff (r.map Prod.fst) (S "Speed")
        (by decide) (by decide)).mp ((contains_iff_memCk _ _).mp hb)
      rcases hsub (S "Speed") hmem with hreq | hcmd
      · revert hreq; decide
      · revert hcmd; decide
  unfold reconcileDf
  rw [h1, h2, if_pos (by decide : ((true && !false : Bool) = true)),
    renameCol_rowDf, hA1]
  dsimp only
  rw [hsp, Bool.false_and,
    if_neg (by decide : ¬((false : Bool) = true)),
    addMissing_fold required_columns
      ((r.map Prod.fst).map fun k => (ColKey.s (renCmd k), r.lookup k))
      (by decide), selectCols_rowDf]
  refine congrArg Except.ok ?_
  refine congrArg (Df.mk (required_columns.map ColKey.s)) ?_
  refine congrArg (fun x => [x]) ?_
  rw [List.map_map]
  refine List.map_congr_left fun c hc => ?_
  simp only [Function.comp]
  by_cases hcCMD : c = S "CMD"
  · subst hcCMD
    rw [lookup_append_some_ck _ _ _ _
      (lookup_ren_cmd r (r.map Prod.fst) hin hout), if_pos rfl]
    simp [hTH]
  · have hcCmd : c ≠ S "Cmd" := required_ne_cmd c hc
    rw [if_neg hcCMD]
    by_cases hmem : c ∈ r.map Prod.fst
    · have hlk : (((r.map Prod.fst).map fun k => (ColKey.s (renCmd k), r.lookup k)).lookup
          (ColKey.s c)) = some (List.lookup c r) := by
        rw [lookup_ren_other r (r.map Prod.fst) c hcCmd hcCMD, if_pos hmem]
      rw [lookup_append_some_ck _ _ _ _ hlk]
      obtain ⟨v, hv⟩ := lookup_mem_keys r c hmem
      simp [hv]
    · have hlk : (((r.map Prod.fst).map fun k => (ColKey.s (renCmd k), r.lookup k)).lookup
          (ColKey.s c)) = none := by
        rw [lookup_ren_other r (r.map Prod.fst) c hcCmd hcCMD, if_neg hmem]
      rw [lookup_append_none_ck _ _ _ hlk]
      have hcontains : (((r.map Prod.fst).map fun k =>
          (ColKey.s (renCmd k), r.lookup k)).map Prod.fst).contains (ColKey.s c) = false := by
        rw [hA1cols]
        cases hb : ((r.map Prod.fst).map fun k => ColKey.s (renCmd k)).contains (ColKey.s c) with
        | false => rfl
        | true =>
          exact absurd ((mem_ren_cols_iff (r.map Prod.fst) c hcCmd hcCMD).mp
            ((contains_iff_memCk _ _).mp hb)) hmem
      have hcfilter : c ∈ required_columns.filter fun c' =>
          !((((r.map Prod.fst).map fun k => (ColKey.s (renCmd k), r.lookup k)).map
            Prod.fst).contains (ColKey.s c')) := by
        rw [List.mem_filter]
        exact ⟨hc, by rw [hcontains]; rfl⟩
      rw [lookup_const_cols, if_pos hcfilter]
      rw [lookup_not_mem_keys r c hmem]
      rfl

/-- C9 witness: a concrete three-field row with `Cmd = TH`. -/
theorem C9_reconcile_single_row_witness :
    (dfFromData [PyVal.obj [(S "Row", PyVal.str (S "R00")),
        (S "Cmd", PyVal.str (S "TH")),
        (S "Description", PyVal.str (S "Threshold (Search Contact)"))]]).map reconcileDf =
      .ok ⟨required_columns.map ColKey.s,
        [required_columns.map fun c =>
           if c = S "CMD" then some (PyVal.str (S "TH"))
           else some ((List.lookup c [(S "Row", PyVal.str (S "R00")),
              (S "Cmd", PyVal.str (S "TH")),
              (S "Description", PyVal.str (S "Threshold (Search Contact)"))]).getD
                (.str []))]⟩ :=
  C9_reconcile_single_row _ (by decide) (by decide) (by decide) (by decide) (by rfl)


/-! ### Claim C8

A compact JSON serializer supplies the "JSON array text" universe: its
output contains no raw newline (strings escape control characters), starts
with `[` and ends with `]`, which is all the fence-invariance proof needs.
Rationals whose denominator divides no power of ten are rendered as a
fraction — such values are outside the float-representable fragment and
never arise from the source; no lemma depends on the number rendering. -/

/-- Hexadecimal digit character. -/
def hexCh (n : Nat) : Char :=
  match n with
  | 0 => '0' | 1 => '1' | 2 => '2' | 3 => '3' | 4 => '4' | 5 => '5'
  | 6 => '6' | 7 => '7' | 8 => '8' | 9 => '9' | 10 => 'a' | 11 => 'b'
  | 12 => 'c' | 13 => 'd' | 14 => 'e' | _ => 'f'

/-- JSON string escaping of one character. -/
def escChar (c : Char) : Str :=
  if c = '"' then ['\\', '"']
  else if c = '\\' then ['\\', '\\']
  else if c = '\n' then ['\\', 'n']
  else if c = '\r' then ['\\', 'r']
  else if c = '\t' then ['\\', 't']
  else if c.toNat < 32 then ['\\', 'u', '0', '0', hexCh (c.toNat / 16), hexCh (c.toNat % 16)]
  else [c]

/-- A serialized JSON string literal. -/
def serStr (s : Str) : Str := '"' :: s.foldr (fun c acc => escChar c ++ acc) ['"']

/-- Join serialized members with commas. -/
def joinComma : List Str → Str
  | [] => []
  | [s] => s
  | s :: rest => s ++ ',' :: joinComma rest

/-- Decimal (or fallback fractional) rendering of a rational. -/
def ratDecStr (q : Rat) : Str :=
  let sgn : Str := if q < 0 then ['-'] else []
  let n := q.num.natAbs
  let d := q.den
  match (List.range 31).find? (fun k => 10 ^ k % d = 0) with
  | some k =>
    let m := n * (10 ^ k / d)
    sgn ++ natToStr (m / 10 ^ k) ++
      (if k = 0 then [] else '.' :: padZeros k (natToStr (m % 10 ^ k)))
  | none => sgn ++ natToStr n ++ '/' :: natToStr d

/-- Compact JSON serialization. -/
def jsonSer : PyVal → Str
  | .null => S "null"
  | .bool true => S "true"
  | .bool false => S "false"
  | .num q => ratDecStr q
  | .nan => S "NaN"
  | .inf true => S "Infinity"
  | .inf false => S "-Infinity"
  | .str s => serStr s
  | .arr l => '[' :: joinComma (l.attach.map fun x => jsonSer x.1) ++ [']']
  | .obj l =>
    '\x7b' :: joinComma (l.attach.map fun x => serStr x.1.1 ++ ':' :: jsonSer x.1.2) ++ ['\x7d']
termination_by v => sizeOf v
decreasing_by
  · obtain ⟨y, hy⟩ := x
    have := List.sizeOf_lt_of_mem hy
    simp only [PyVal.arr.sizeOf_spec]
    omega
  · obtain ⟨⟨a, b⟩, hy⟩ := x
    have h1 := List.sizeOf_lt_of_mem hy
    simp only [PyVal.obj.sizeOf_spec, Prod.mk.sizeOf_spec] at h1 ⊢
    omega

/-- The fenced code block of the claim. -/
def fenceWrap (s : Str) : Str := S "```json\n" ++ s ++ S "\n```"

theorem digitCh_ne_nl (n : Nat) : digitCh n ≠ '\n' := by
  unfold digitCh; split <;> decide

theorem hexCh_ne_nl (n : Nat) : hexCh n ≠ '\n' := by
  unfold hexCh; split <;> decide

theorem natToStrGo_no_nl :
    ∀ (fuel n : Nat) (acc : Str), (∀ c ∈ acc, c ≠ '\n') →
      ∀ c ∈ natToStrGo fuel n acc, c ≠ '\n' := by
  intro fuel
  induction fuel with
  | zero => intro n acc hacc c hc; exact hacc c hc
  | succ f ih =>
    intro n acc hacc c hc
    unfold natToStrGo at hc
    by_cases hn : n < 10
    · rw [if_pos hn] at hc
      rcases List.mem_cons.mp hc with rfl | hmem
      · exact digitCh_ne_nl n
      · exact hacc c hmem
    · rw [if_neg hn] at hc
      refine ih (n / 10) (digitCh (n % 10) :: acc) ?_ c hc
      intro d hd
      rcases List.mem_cons.mp hd with rfl | hmem
      · exact digitCh_ne_nl (n % 10)
      · exact hacc d hmem

theorem natToStr_no_nl (n : Nat) : ∀ c ∈ natToStr n, c ≠ '\n' :=
  natToStrGo_no_nl (n + 1) n [] (by intro c hc; cases hc)

theorem padZeros_no_nl (k : Nat) (s : Str) (hs : ∀ c ∈ s, c ≠ '\n') :
    ∀ c ∈ padZeros k s, c ≠ '\n' := by
  intro c hc
  rcases List.mem_append.mp hc with hrep | hmem
  · rw [List.eq_of_mem_replicate hrep]; decide
  · exact hs c hmem

theorem ratDecStr_no_nl (q : Rat) : ∀ c ∈ ratDecStr q, c ≠ '\n' := by
  intro c hc
  unfold ratDecStr at hc
  dsimp only at hc
  have hsgn : ∀ d ∈ (if q < 0 then ['-'] else ([] : Str)), d ≠ '\n' := by
    split <;> intro d hd <;> simp only [List.mem_singleton, List.not_mem_nil] at hd
    · subst hd; decide
  rcases hfind : (List.range 31).find? (fun k => 10 ^ k % q.den = 0) with _ | k <;>
    rw [hfind] at hc
  · rcases List.mem_append.mp hc with h | h
    · rcases List.mem_append.mp h with h2 | h2
      · exact hsgn c h2
      · exact natToStr_no_nl _ c h2
    · rcases List.mem_cons.mp h with rfl | h2
      · decide
      · exact natToStr_no_nl _ c h2
  · rcases List.mem_append.mp hc with h | h
    · rcases List.mem_append.mp h with h2 | h2
      · exact hsgn c h2
      · exact natToStr_no_nl _ c h2
    · split at h
      · cases h
      · rcases List.mem_cons.mp h with rfl | h2
        · decide
        · exact padZeros_no_nl _ _ (natToStr_no_nl _) c h2

theorem escChar_no_nl (d : Char) : ∀ c ∈ escChar d, c ≠ '\n' := by
  intro c hc
  unfold escChar at hc
  split_ifs at hc with h1 h2 h3 h4 h5 h6
  · rcases List.mem_cons.mp hc with rfl | hc2
    · decide
    · rcases List.mem_cons.mp hc2 with rfl | hc3
      · decide
      · cases hc3
  · rcases List.mem_cons.mp hc with rfl | hc2
    · decide
    · rcases List.mem_cons.mp hc2 with rfl | hc3
      · decide
      · cases hc3
  · rcases List.mem_cons.mp hc with rfl | hc2
    · decide
    · rcases List.mem_cons.mp hc2 with rfl | hc3
      · decide
      · cases hc3
  · rcases List.mem_cons.mp hc with rfl | hc2
    · decide
    · rcases List.mem_cons.mp hc2 with rfl | hc3
      · decide
      · cases hc3
  · rcases List.mem_cons.mp hc with rfl | hc2
    · decide
    · rcases List.mem_cons.mp hc2 with rfl | hc3
      · decide
      · cases hc3
  · simp only [List.mem_cons, List.not_mem_nil, or_false] at hc
    rcases hc with rfl | rfl | rfl | rfl | rfl | rfl
    · decide
    · decide
    · decide
    · decide
    · exact hexCh_ne_nl _
    · exact hexCh_ne_nl _
  · rcases List.mem_cons.mp hc with rfl | hc2
    · exact h3
    · cases hc2

theorem serStr_no_nl (s : Str) : ∀ c ∈ serStr s, c ≠ '\n' := by
  intro c hc
  unfold serStr at hc
  rcases List.mem_cons.mp hc with rfl | hc2
  · decide
  · clear hc
    induction s with
    | nil =>
      simp only [List.foldr_nil, List.mem_singleton] at hc2
      subst hc2; decide
    | cons d t ih =>
      simp only [List.foldr_cons] at hc2
      rcases List.mem_append.mp hc2 with h | h
      · exact escChar_no_nl d c h
      · exact ih h

theorem mem_joinComma :
    ∀ (parts : List Str) (c : Char), c ∈ joinComma parts →
      c = ',' ∨ ∃ p ∈ parts, c ∈ p := by
  intro parts
  induction parts with
  | nil => intro c hc; cases hc
  | cons s rest ih =>
    intro c hc
    cases rest with
    | nil =>
      simp only [joinComma] at hc
      exact Or.inr ⟨s, by simp, hc⟩
    | cons s2 rest2 =>
      simp only [joinComma] at hc
      rcases List.mem_append.mp hc with h | h
      · exact Or.inr ⟨s, by simp, h⟩
      · rcases List.mem_cons.mp h with rfl | h2
        · exact Or.inl rfl
        · rcases ih c h2 with h3 | ⟨p, hp, hcp⟩
          · exact Or.inl h3
          · exact Or.inr ⟨p, List.mem_cons_of_mem _ hp, hcp⟩

theorem no_nl_of_all (s : Str) (hall : s.all (fun c => c != '\n') = true) :
    ∀ c ∈ s, c ≠ '\n' := fun c hc => by
  have := List.all_eq_true.mp hall c hc
  simpa using this

theorem jsonSer_no_nl_bounded :
    ∀ (n : Nat) (v : PyVal), sizeOf v ≤ n → ∀ c ∈ jsonSer v, c ≠ '\n' := by
  intro n
  induction n with
  | zero =>
    intro v hv
    cases v <;>
      simp only [PyVal.null.sizeOf_spec, PyVal.bool.sizeOf_spec,
        PyVal.num.sizeOf_spec, PyVal.nan.sizeOf_spec, PyVal.inf.sizeOf_spec,
        PyVal.str.sizeOf_spec, PyVal.arr.sizeOf_spec, PyVal.obj.sizeOf_spec] at hv <;>
      omega
  | succ m ih =>
    intro v hv c hc
    cases v with
    | null =>
      simp only [jsonSer] at hc
      exact no_nl_of_all _ (by decide) c hc
    | bool b =>
      cases b <;> simp only [jsonSer] at hc <;>
        exact no_nl_of_all _ (by decide) c hc
    | num q =>
      simp only [jsonSer] at hc
      exact ratDecStr_no_nl q c hc
    | nan =>
      simp only [jsonSer] at hc
      exact no_nl_of_all _ (by decide) c hc
    | inf b =>
      cases b <;> simp only [jsonSer] at hc <;>
        exact no_nl_of_all _ (by decide) c hc
    | str s =>
      simp only [jsonSer] at hc
      exact serStr_no_nl s c hc
    | arr l =>
      simp only [jsonSer] at hc
      rcases List.mem_cons.mp hc with rfl | h
      · decide
      · rcases List.mem_append.mp h with h2 | h2
        · rcases mem_joinComma _ c h2 with rfl | ⟨p, hp, hcp⟩
          · decide
          · obtain ⟨x, _, rfl⟩ := List.mem_map.mp hp
            have hsz : sizeOf x.1 ≤ m := by
              have h3 := List.sizeOf_lt_of_mem x.2
              have h4 : sizeOf (PyVal.arr l) ≤ m + 1 := hv
              simp only [PyVal.arr.sizeOf_spec] at h4
              omega
            exact ih x.1 hsz c hcp
        · rcases List.mem_cons.mp h2 with rfl | h3
          · decide
          · cases h3
    | obj l =>
      simp only [jsonSer] at hc
      rcases List.mem_cons.mp hc with rfl | h
      · decide
      · rcases List.mem_append.mp h with h2 | h2
        · rcases mem_joinComma _ c h2 with rfl | ⟨p, hp, hcp⟩
          · decide
          · obtain ⟨x, _, rfl⟩ := List.mem_map.mp hp
            rcases List.mem_append.mp hcp with h4 | h4
            · exact serStr_no_nl x.1.1 c h4
            · rcases List.mem_cons.mp h4 with rfl | h5
              · decide
              · have hsz : sizeOf x.1.2 ≤ m := by
                  have h3 := List.sizeOf_lt_of_mem x.2
                  have h6 : sizeOf (PyVal.obj l) ≤ m + 1 := hv
                  simp only [PyVal.obj.sizeOf_spec] at h6
                  have h7 : sizeOf x.1.2 < sizeOf x.1 := by
                    obtain ⟨a, b⟩ := x.1
                    simp only [Prod.mk.sizeOf_spec]
                    omega
                  omega
                exact ih x.1.2 hsz c h5
        · rcases List.mem_cons.mp h2 with rfl | h3
          · decide
          · cases h3

theorem jsonSer_no_nl (v : PyVal) : ∀ c ∈ jsonSer v, c ≠ '\n' :=
  jsonSer_no_nl_bounded (sizeOf v) v (Nat.le_refl _)

theorem litCS_self_append (w t : Str) : litCS w (w ++ t) = some t := by
  induction w with
  | nil => rfl
  | cons c cs ih =>
    show litCS (c :: cs) (c :: (cs ++ t)) = some t
    unfold litCS
    rw [if_pos rfl]
    exact ih

theorem takeUntilSub_nl_append (A : Str) (hA : ∀ c ∈ A, c ≠ '\n') :
    takeUntilSub (S "\n```") (A ++ S "\n```") = some A := by
  induction A with
  | nil => rfl
  | cons a t ih =>
    have ha : a ≠ '\n' := hA a (List.mem_cons_self a t)
    have ht : ∀ c ∈ t, c ≠ '\n' := fun c hc => hA c (List.mem_cons_of_mem a hc)
    show takeUntilSub (S "\n```") (a :: (t ++ S "\n```")) = some (a :: t)
    unfold takeUntilSub
    have hlit : litCS (S "\n```") (a :: (t ++ S "\n```")) = none := by
      show (if a = '\n' then litCS (S "```") (t ++ S "\n```") else none) = none
      rw [if_neg ha]
    rw [hlit]
    show (takeUntilSub (S "\n```") (t ++ S "\n```")).map (a :: ·) = some (a :: t)
    rw [ih ht]
    rfl

theorem takeToLast_append_last (B : Str) :
    takeToLast ']' (B ++ [']']) = some (B ++ [']']) := by
  unfold takeToLast
  rw [List.reverse_append]
  show some ((']' :: B.reverse).reverse) = some (B ++ [']'])
  simp

theorem fenceScan_cons (c : Char) (t : Str) :
    fenceScan (c :: t) = match fenceFindAt (c :: t) with
      | some h => some h
      | none => fenceScan t := rfl

theorem ecsContent_fenceWrap (A : Str) (hA : ∀ c ∈ A, c ≠ '\n')
    (hne : A.isEmpty = false) : ecsContent (fenceWrap A) = some A := by
  have e : fenceWrap A = '`' :: (S "``json\n" ++ (A ++ S "\n```")) := rfl
  have h0 : fenceFindAt ('`' :: (S "``json\n" ++ (A ++ S "\n```"))) = some (.g1 A) := by
    rw [← e]
    unfold fenceWrap fenceFindAt
    rw [List.append_assoc, litCS_self_append]
    show (takeUntilSub (S "\n```") (A ++ S "\n```")).map FenceHit.g1 = some (FenceHit.g1 A)
    rw [takeUntilSub_nl_append A hA]
    rfl
  have h1 : fenceScan (fenceWrap A) = some (.g1 A) := by
    rw [e, fenceScan_cons, h0]
  unfold ecsContent
  rw [h1]
  show (if A.isEmpty then none else some A) = some A
  rw [hne]
  rfl

theorem ecsContent_bracket (B : Str) :
    ecsContent ('[' :: (B ++ [']'])) = some ('[' :: (B ++ [']'])) := by
  have h0 : fenceFindAt ('[' :: (B ++ [']'])) = some (.g2 ('[' :: (B ++ [']']))) := by
    unfold fenceFindAt
    show (takeToLast ']' (B ++ [']'])).map (fun m => FenceHit.g2 ('[' :: m)) =
      some (FenceHit.g2 ('[' :: (B ++ [']'])))
    rw [takeToLast_append_last]
    rfl
  have h1 : fenceScan ('[' :: (B ++ [']'])) = some (.g2 ('[' :: (B ++ [']']))) := by
    rw [fenceScan_cons, h0]
  unfold ecsContent
  rw [h1]

theorem jsonSer_arr_eq (l : List PyVal) :
    jsonSer (.arr l) =
      '[' :: (joinComma (l.attach.map fun x => jsonSer x.1) ++ [']']) := by
  simp only [jsonSer]
  rfl

/-- C8: for every JSON array text (here: the serialization of any list of
values), `extract_command_sequence` applied to the text wrapped in a
```` ```json ```` fenced block returns the same result as applied to the
bare text. -/
theorem C8_fence_wrap_invariance (l : List PyVal) :
    extract_command_sequence (fenceWrap (jsonSer (.arr l))) =
      extract_command_sequence (jsonSer (.arr l)) := by
  have hshape := jsonSer_arr_eq l
  have hA : ∀ c ∈ jsonSer (.arr l), c ≠ '\n' := jsonSer_no_nl _
  have hne : (jsonSer (.arr l)).isEmpty = false := by rw [hshape]; rfl
  have h1 : ecsContent (fenceWrap (jsonSer (.arr l))) = some (jsonSer (.arr l)) :=
    ecsContent_fenceWrap _ hA hne
  have h2 : ecsContent (jsonSer (.arr l)) = some (jsonSer (.arr l)) := by
    rw [hshape]
    exact ecsContent_bracket _
  unfold extract_command_sequence
  rw [h1, h2]


/-! ### Claim C7 -/

/-- C7: with `max_retries = 3` and a transport error on every attempt, the
run makes exactly 3 send attempts, sleeps `2^attempt` seconds only between
attempts (1 then 2, none after the last), and leaves chat memory unchanged —
on both request paths.  The hypothesis only fixes the prompt *value* as a
string `p`: it covers every deployed run, since a missing `prompt` key
defaults to the empty string (a non-string value would kill the worker at
`original_prompt.lower()` before any attempt is sent).  The exhausted loop's
delivery is path-dependent: the generation path carries the last attempt's
error, the conversational path an empty chat table with an empty message. -/
theorem C7_exhaustion_trace (params : Params) (mem : List Str)
    (msgs : Nat → Str) (p : Str) (hp : promptVal params = PyVal.str p) :
    APIClientWorker.run params mem 3 (fun i => Attempt.exn (msgs i)) (fun _ => false) =
      ⟨some (if isGenPrompt p then (emptyDf, S "Request error: " ++ msgs 2)
             else (chatDf (PyVal.str []), [])),
       mem, [10, 20, 35, 50, 80, 100],
       [S "Preparing request...",
        S "Sending request (attempt 1/3)...", S "Request error: " ++ msgs 0,
        S "Retrying in 1 seconds...",
        S "Sending request (attempt 2/3)...", S "Request error: " ++ msgs 1,
        S "Retrying in 2 seconds...",
        S "Sending request (attempt 3/3)...", S "Request error: " ++ msgs 2],
       [1, 2], 3, false, false⟩ := by
  unfold APIClientWorker.run
  rw [hp]
  dsimp only
  cases hg : isGenPrompt p with
  | true => rfl
  | false => rfl

/-- The deployed shape: no `prompt` key at all (the UI passes only the
extracted parameters), hence the conversational path. -/
theorem C7_exhaustion_trace_witness :
    APIClientWorker.run [] [S "prior"] 3
        (fun _ => Attempt.exn (S "boom")) (fun _ => false) =
      ⟨some (chatDf (PyVal.str []), []), [S "prior"], [10, 20, 35, 50, 80, 100],
       [S "Preparing request...",
        S "Sending request (attempt 1/3)...", S "Request error: " ++ S "boom",
        S "Retrying in 1 seconds...",
        S "Sending request (attempt 2/3)...", S "Request error: " ++ S "boom",
        S "Retrying in 2 seconds...",
        S "Sending request (attempt 3/3)...", S "Request error: " ++ S "boom"],
       [1, 2], 3, false, false⟩ :=
  C7_exhaustion_trace [] [S "prior"] (fun _ => S "boom") [] rfl


/-! ### Claim C1 -/

theorem finishGeneration_memory (lo : LoopOut) (rt : PyVal) (df : Df)
    (prog : List Nat) (st : List Str) :
    (finishGeneration lo rt df prog st).memory = lo.memory ∧
      (finishGeneration lo rt df prog st).received = lo.received := by
  unfold finishGeneration
  split
  · split
    · split <;> exact ⟨rfl, rfl⟩
    · exact ⟨rfl, rfl⟩
  · exact ⟨rfl, rfl⟩

theorem runAfterLoop_memory (g : Bool) (lo : LoopOut) :
    (runAfterLoop g lo).memory = lo.memory ∧
      (runAfterLoop g lo).received = lo.received := by
  unfold runAfterLoop
  cases hex : lo.exit with
  | cancelled => exact ⟨rfl, rfl⟩
  | crashed e => exact ⟨rfl, rfl⟩
  | response v =>
    dsimp only
    split
    · split
      · exact ⟨rfl, rfl⟩
      · split
        · split
          · exact ⟨rfl, rfl⟩
          · exact finishGeneration_memory _ _ _ _ _
        · exact finishGeneration_memory _ _ _ _ _
    · split
      · exact finishGeneration_memory _ _ _ _ _
      · exact ⟨rfl, rfl⟩
  | exhausted =>
    dsimp only
    split
    · split
      · exact ⟨rfl, rfl⟩
      · split
        · split
          · exact ⟨rfl, rfl⟩
          · exact finishGeneration_memory _ _ _ _ _
        · exact finishGeneration_memory _ _ _ _ _
    · split
      · exact finishGeneration_memory _ _ _ _ _
      · exact ⟨rfl, rfl⟩
  | parseBrk =>
    dsimp only
    split
    · split
      · exact ⟨rfl, rfl⟩
      · split
        · split
          · exact ⟨rfl, rfl⟩
          · exact finishGeneration_memory _ _ _ _ _
        · exact finishGeneration_memory _ _ _ _ _
    · split
      · exact finishGeneration_memory _ _ _ _ _
      · exact ⟨rfl, rfl⟩

theorem loopGo_memory (pt : Str) (env : Nat → Attempt) (flags : Nat → Bool)
    (mr : Nat) :
    ∀ r a i err mem,
      (loopGo pt env flags mr r a i err mem).memory =
        (if (loopGo pt env flags mr r a i err mem).received then
          trimMemory (mem ++ [pt]) else mem) := by
  intro r
  induction r with
  | zero => intro a i err mem; rfl
  | succ n ih =>
    intro a i err mem
    unfold loopGo
    cases hf : flags i with
    | true => rfl
    | false =>
      rw [if_neg Bool.false_ne_true]
      cases henv : env a with
      | exn m =>
        dsimp only
        by_cases hlt : a < mr - 1
        · rw [if_pos hlt]
          cases hf2 : flags (i + 1) with
          | true => exact ih _ _ _ _
          | false => exact ih _ _ _ _
        · rw [if_neg hlt]
          exact ih _ _ _ _
      | badJson m => rfl
      | json v =>
        dsimp only
        cases hc : getContent v with
        | ok rt => rfl
        | error e =>
          dsimp only
          cases he : e.caught with
          | true => rfl
          | false => rfl

/-- C1 (amended): chat memory is appended (and trimmed to the last 10
entries) exactly when an HTTP response is received and its content
extracted — the append happens before sequence parsing, so a generation
later classified as failed (zero rows) still grows the memory; transport
exhaustion, cancellation and response-JSON errors leave it unchanged. -/
theorem C1_memory_appended_iff_received (params : Params) (mem0 : List Str)
    (mr : Nat) (env : Nat → Attempt) (flags : Nat → Bool) :
    (APIClientWorker.run params mem0 mr env flags).memory =
      (if (APIClientWorker.run params mem0 mr env flags).received then
        trimMemory (mem0 ++ [format_parameter_text params]) else mem0) := by
  unfold APIClientWorker.run
  cases hpv : promptVal params with
  | null => rfl
  | bool b => rfl
  | num q => rfl
  | nan => rfl
  | inf b => rfl
  | arr l => rfl
  | obj l => rfl
  | str p =>
    dsimp only
    rw [(runAfterLoop_memory _ _).1, (runAfterLoop_memory _ _).2]
    exact loopGo_memory _ _ _ _ _ _ _ _ _

/-- Response payload for the C1 counterexample: a well-formed completion
whose content `"hello"` yields no command rows. -/
def c1Resp : PyVal :=
  PyVal.obj [(S "choices", PyVal.arr [PyVal.obj [(S "message",
    PyVal.obj [(S "content", PyVal.str (S "hello"))])]])]

/-- C1 counterexample: a generation run that terminates in a failure
(`"Failed to generate sequence"`, zero rows parsed) yet grows the chat
memory, refuting "never mutated by failed runs". -/
theorem C1_counterexample :
    (APIClientWorker.run [(S "prompt", PyVal.str (S "generate"))] [] 1
        (fun _ => Attempt.json c1Resp) (fun _ => false)).outcome =
      some (emptyDf, S "Failed to generate sequence") ∧
    (APIClientWorker.run [(S "prompt", PyVal.str (S "generate"))] [] 1
        (fun _ => Attempt.json c1Resp) (fun _ => false)).memory ≠ [] :=
  ⟨rfl, fun h => List.noConfusion h⟩


/-! ### Claim C3 -/

theorem loopGo_allExn (pt : Str) (msgs : Nat → Str) (mr : Nat) :
    ∀ r a i err mem, 0 < r →
      (loopGo pt (fun j => Attempt.exn (msgs j)) (fun _ => false) mr r a i err mem).exit =
        LoopExit.exhausted ∧
      (loopGo pt (fun j => Attempt.exn (msgs j)) (fun _ => false) mr r a i err mem).errMsg =
        S "Request error: " ++ msgs (a + r - 1) := by
  intro r
  induction r with
  | zero => intro a i err mem h; exact absurd h (by decide)
  | succ n ih =>
    intro a i err mem _
    unfold loopGo
    dsimp only
    rw [if_neg Bool.false_ne_true]
    by_cases hlt : a < mr - 1
    · rw [if_pos hlt]
      cases n with
      | zero =>
        rw [if_neg Bool.false_ne_true]
        exact ⟨rfl, rfl⟩
      | succ m =>
        rw [if_neg Bool.false_ne_true]
        obtain ⟨h1, h2⟩ := ih (a + 1) (i + 2) (S "Request error: " ++ msgs a) mem
          (Nat.succ_pos m)
        refine ⟨h1, ?_⟩
        rw [show a + (m + 1 + 1) - 1 = a + 1 + (m + 1) - 1 from by omega]
        exact h2
    · rw [if_neg hlt]
      cases n with
      | zero => exact ⟨rfl, rfl⟩
      | succ m =>
        obtain ⟨h1, h2⟩ := ih (a + 1) (i + 1) (S "Request error: " ++ msgs a) mem
          (Nat.succ_pos m)
        refine ⟨h1, ?_⟩
        rw [show a + (m + 1 + 1) - 1 = a + 1 + (m + 1) - 1 from by omega]
        exact h2

theorem runAfterLoop_exhausted_outcome (g : Bool) (ex : LoopExit) (em : Str)
    (pr : List Nat) (st : List Str) (sl : List Nat) (att : Nat)
    (mem : List Str) (rc : Bool) (m : Str) (hex : ex = LoopExit.exhausted)
    (herr : em = S "Request error: " ++ m) :
    (runAfterLoop g ⟨ex, em, pr, st, sl, att, mem, rc⟩).outcome =
      (if g then some (emptyDf, S "Request error: " ++ m)
       else some (chatDf (PyVal.str []), [])) := by
  subst hex herr
  unfold runAfterLoop
  dsimp only
  rw [show (pyTruthy (PyVal.str []) && g) = false from rfl,
    if_neg Bool.false_ne_true]
  cases g with
  | true =>
    rw [if_pos rfl]
    unfold finishGeneration
    rw [show (emptyDf.rows.isEmpty) = true from rfl, if_pos rfl]
    rw [show ((S "Request error: " ++ m).isEmpty) = false from rfl,
      if_neg Bool.false_ne_true]
    rfl
  | false =>
    rw [if_neg Bool.false_ne_true]
    rfl

/-- C3 (amended): when the retry budget is exhausted by transport errors,
the generation path delivers a non-empty failure message (the last
attempt's `Request error: …`), but the conversational path delivers an
empty chat table with an empty error message — the failure is user-visible
only on the generation path. -/
theorem C3_exhaustion_message_amended (params : Params) (mem0 : List Str)
    (mr : Nat) (msgs : Nat → Str) (p : Str) (hmr : 0 < mr)
    (hp : List.lookup (S "prompt") params = some (PyVal.str p)) :
    (isGenPrompt p = true →
      (APIClientWorker.run params mem0 mr (fun j => Attempt.exn (msgs j))
          (fun _ => false)).outcome =
        some (emptyDf, S "Request error: " ++ msgs (mr - 1))) ∧
    (isGenPrompt p = false →
      (APIClientWorker.run params mem0 mr (fun j => Attempt.exn (msgs j))
          (fun _ => false)).outcome = some (chatDf (PyVal.str []), [])) ∧
    S "Request error: " ++ msgs (mr - 1) ≠ [] := by
  have hpv : promptVal params = PyVal.str p := by
    unfold promptVal
    rw [hp]
    rfl
  obtain ⟨hex, herr⟩ := loopGo_allExn (format_parameter_text params) msgs mr
    mr 0 0 [] mem0 hmr
  rw [Nat.zero_add] at herr
  unfold APIClientWorker.run
  rw [hpv]
  dsimp only
  refine ⟨fun hg => ?_, fun hg => ?_, fun h => List.noConfusion h⟩
  · rw [runAfterLoop_exhausted_outcome (isGenPrompt p) _ _ _ _ _ _ _ _
      (msgs (mr - 1)) hex herr, hg]
    rfl
  · rw [runAfterLoop_exhausted_outcome (isGenPrompt p) _ _ _ _ _ _ _ _
      (msgs (mr - 1)) hex herr, hg]
    rfl

theorem C3_exhaustion_message_amended_witness :
    (APIClientWorker.run [(S "prompt", PyVal.str (S "generate"))] [] 3
        (fun _ => Attempt.exn (S "timed out")) (fun _ => false)).outcome =
      some (emptyDf, S "Request error: " ++ S "timed out") :=
  (C3_exhaustion_message_amended [(S "prompt", PyVal.str (S "generate"))] [] 3
      (fun _ => S "timed out") (S "generate") (by decide) rfl).1 rfl

/-- C3 counterexample: a conversational request that exhausts its retry
budget is delivered with an empty error message, refuting "non-empty
user-visible failure message … on both paths". -/
theorem C3_counterexample :
    (APIClientWorker.run [(S "prompt", PyVal.str (S "hi"))] [] 2
        (fun _ => Attempt.exn (S "boom")) (fun _ => false)).outcome =
      some (chatDf (PyVal.str []), []) := rfl


/-! ### Claim C4

`ndFrom x l` says `l` is non-decreasing with every element at least `x`;
`isNonDecr` is plain monotonicity of the emitted progress sequence. -/

def ndFrom (x : Nat) : List Nat → Bool
  | [] => true
  | y :: t => decide (x ≤ y) && ndFrom y t

def isNonDecr : List Nat → Bool
  | [] => true
  | y :: t => ndFrom y t

theorem ndFrom_mono (x y : Nat) (l : List Nat) (hxy : x ≤ y)
    (h : ndFrom y l = true) : ndFrom x l = true := by
  cases l with
  | nil => rfl
  | cons z t =>
    simp only [ndFrom, Bool.and_eq_true, decide_eq_true_eq] at h ⊢
    exact ⟨le_trans hxy h.1, h.2⟩

theorem ndFrom_append_le (x B : Nat) (l1 l2 : List Nat)
    (h1 : ndFrom x l1 = true) (hB : ∀ y ∈ l1, y ≤ B) (hxB : x ≤ B)
    (h2 : ndFrom B l2 = true) : ndFrom x (l1 ++ l2) = true := by
  induction l1 generalizing x with
  | nil => exact ndFrom_mono x B l2 hxB h2
  | cons c t ih =>
    simp only [ndFrom, Bool.and_eq_true, decide_eq_true_eq] at h1
    simp only [List.cons_append, ndFrom, Bool.and_eq_true, decide_eq_true_eq]
    exact ⟨h1.1, ih c h1.2 (fun y hy => hB y (List.mem_cons_of_mem c hy))
      (hB c (List.mem_cons_self c t))⟩

theorem ndFrom_cons_self (x : Nat) (t : List Nat) (h : ndFrom x t = true) :
    ndFrom x (x :: t) = true := by
  simp only [ndFrom, Bool.and_eq_true, decide_eq_true_eq]
  exact ⟨le_refl x, h⟩

theorem getLastEnd (l : List Nat) (a : Nat) : (l ++ [a]).getLast? = some a := by
  rw [List.getLast?_append_cons]
  rfl

theorem getLast90100 (l : List Nat) : (l ++ [90, 100]).getLast? = some 100 := by
  rw [List.getLast?_append_cons]
  rfl

theorem finishGeneration_progress (lo : LoopOut) (rt : PyVal) (df : Df)
    (prog : List Nat) (st : List Str) :
    (finishGeneration lo rt df prog st).progress = prog := by
  unfold finishGeneration
  split
  · split
    · split <;> rfl
    · rfl
  · rfl

theorem loopGo_progress (pt : Str) (env : Nat → Attempt) (flags : Nat → Bool)
    (mr : Nat) (hmr : mr ≤ 4) :
    ∀ r a i err mem, a + r ≤ mr →
      ndFrom (20 + a * 15) (loopGo pt env flags mr r a i err mem).progress = true ∧
      ∀ x ∈ (loopGo pt env flags mr r a i err mem).progress, x ≤ 70 := by
  intro r
  induction r with
  | zero =>
    intro a i err mem _
    exact ⟨rfl, fun x hx => absurd hx (List.not_mem_nil x)⟩
  | succ n ih =>
    intro a i err mem hle
    have hpe : 20 + a * 15 ≤ 70 := by omega
    unfold loopGo
    cases hf : flags i with
    | true => exact ⟨rfl, fun x hx => absurd hx (List.not_mem_nil x)⟩
    | false =>
      rw [if_neg Bool.false_ne_true]
      cases henv : env a with
      | exn m =>
        dsimp only
        by_cases hlt : a < mr - 1
        · rw [if_pos hlt]
          cases hf2 : flags (i + 1) with
          | true =>
            obtain ⟨hnd, hmem⟩ := ih (a + 1) (i + 2)
              (S "Request error: " ++ m) mem (by omega)
            refine ⟨ndFrom_cons_self _ _ (ndFrom_mono _ _ _ (by omega) hnd), ?_⟩
            intro x hx
            rcases List.mem_cons.mp hx with rfl | h
            · exact hpe
            · exact hmem x h
          | false =>
            obtain ⟨hnd, hmem⟩ := ih (a + 1) (i + 2)
              (S "Request error: " ++ m) mem (by omega)
            refine ⟨ndFrom_cons_self _ _ (ndFrom_mono _ _ _ (by omega) hnd), ?_⟩
            intro x hx
            rcases List.mem_cons.mp hx with rfl | h
            · exact hpe
            · exact hmem x h
        · rw [if_neg hlt]
          obtain ⟨hnd, hmem⟩ := ih (a + 1) (i + 1)
            (S "Request error: " ++ m) mem (by omega)
          refine ⟨ndFrom_cons_self _ _ (ndFrom_mono _ _ _ (by omega) hnd), ?_⟩
          intro x hx
          rcases List.mem_cons.mp hx with rfl | h
          · exact hpe
          · exact hmem x h
      | badJson m =>
        dsimp only
        refine ⟨?_, ?_⟩
        · simp only [ndFrom, Bool.and_eq_true, decide_eq_true_eq]
          exact ⟨le_refl _, trivial⟩
        · intro x hx
          rcases List.mem_cons.mp hx with rfl | h
          · exact hpe
          · exact absurd h (List.not_mem_nil x)
      | json v =>
        dsimp only
        cases hc : getContent v with
        | ok rt =>
          refine ⟨?_, ?_⟩
          · simp only [ndFrom, Bool.and_eq_true, decide_eq_true_eq]
            exact ⟨le_refl _, by omega, trivial⟩
          · intro x hx
            rcases List.mem_cons.mp hx with rfl | h
            · exact hpe
            · rcases List.mem_cons.mp h with rfl | h2
              · exact le_refl 70
              · exact absurd h2 (List.not_mem_nil x)
        | error e =>
          dsimp only
          cases he : e.caught with
          | true =>
            refine ⟨?_, ?_⟩
            · simp only [ndFrom, Bool.and_eq_true, decide_eq_true_eq]
              exact ⟨le_refl _, by omega, trivial⟩
            · intro x hx
              rcases List.mem_cons.mp hx with rfl | h
              · exact hpe
              · rcases List.mem_cons.mp h with rfl | h2
                · exact le_refl 70
                · exact absurd h2 (List.not_mem_nil x)
          | false =>
            refine ⟨?_, ?_⟩
            · simp only [ndFrom, Bool.and_eq_true, decide_eq_true_eq]
              exact ⟨le_refl _, by omega, trivial⟩
            · intro x hx
              rcases List.mem_cons.mp hx with rfl | h
              · exact hpe
              · rcases List.mem_cons.mp h with rfl | h2
                · exact le_refl 70
                · exact absurd h2 (List.not_mem_nil x)

theorem runAfterLoop_monotone (g : Bool) (ex : LoopExit) (em : Str)
    (lp : List Nat) (st : List Str) (sl : List Nat) (att : Nat)
    (mem : List Str) (rc : Bool)
    (hnd : ndFrom 20 lp = true) (hle : ∀ x ∈ lp, x ≤ 70) :
    isNonDecr (runAfterLoop g ⟨ex, em, 10 :: lp, st, sl, att, mem, rc⟩).progress =
      true := by
  have hnd10 : ndFrom 10 lp = true := ndFrom_mono 10 20 lp (by omega) hnd
  have key : ∀ tail : List Nat, ndFrom 70 tail = true →
      ndFrom 10 (lp ++ tail) = true :=
    fun tail ht => ndFrom_append_le 10 70 lp tail hnd10 hle (by omega) ht
  unfold runAfterLoop
  cases ex with
  | cancelled => exact hnd10
  | crashed e => exact hnd10
  | response v =>
    dsimp only
    split
    · split
      · exact key [80] (by decide)
      · split
        · split
          · rw [List.append_assoc]
            exact key ([80] ++ [90]) (by decide)
          · rw [finishGeneration_progress, List.append_assoc]
            exact key ([80] ++ [90, 100]) (by decide)
        · rw [finishGeneration_progress, List.append_assoc]
          exact key ([80] ++ [100]) (by decide)
    · split
      · rw [finishGeneration_progress, List.append_assoc]
        exact key ([80] ++ [100]) (by decide)
      · rw [List.append_assoc]
        exact key ([80] ++ [100]) (by decide)
  | exhausted =>
    dsimp only
    split
    · split
      · exact key [80] (by decide)
      · split
        · split
          · rw [List.append_assoc]
            exact key ([80] ++ [90]) (by decide)
          · rw [finishGeneration_progress, List.append_assoc]
            exact key ([80] ++ [90, 100]) (by decide)
        · rw [finishGeneration_progress, List.append_assoc]
          exact key ([80] ++ [100]) (by decide)
    · split
      · rw [finishGeneration_progress, List.append_assoc]
        exact key ([80] ++ [100]) (by decide)
      · rw [List.append_assoc]
        exact key ([80] ++ [100]) (by decide)
  | parseBrk =>
    dsimp only
    split
    · split
      · exact key [80] (by decide)
      · split
        · split
          · rw [List.append_assoc]
            exact key ([80] ++ [90]) (by decide)
          · rw [finishGeneration_progress, List.append_assoc]
            exact key ([80] ++ [90, 100]) (by decide)
        · rw [finishGeneration_progress, List.append_assoc]
          exact key ([80] ++ [100]) (by decide)
    · split
      · rw [finishGeneration_progress, List.append_assoc]
        exact key ([80] ++ [100]) (by decide)
      · rw [List.append_assoc]
        exact key ([80] ++ [100]) (by decide)

theorem runAfterLoop_last100 (g : Bool) (ex : LoopExit) (em : Str)
    (lp : List Nat) (st : List Str) (sl : List Nat) (att : Nat)
    (mem : List Str) (rc : Bool) :
    (runAfterLoop g ⟨ex, em, 10 :: lp, st, sl, att, mem, rc⟩).cancelledExit =
      false →
    (runAfterLoop g ⟨ex, em, 10 :: lp, st, sl, att, mem, rc⟩).outcome.isSome =
      true →
    (runAfterLoop g ⟨ex, em, 10 :: lp, st, sl, att, mem, rc⟩).progress.getLast? =
      some 100 := by
  unfold runAfterLoop
  cases ex with
  | cancelled =>
    dsimp only
    intro h
    exact Bool.noConfusion h
  | crashed e =>
    dsimp only
    intro _ h
    exact Bool.noConfusion h
  | response v =>
    dsimp only
    split
    · split
      · intro _ h
        exact Bool.noConfusion h
      · split
        · split
          · intro _ h
            exact Bool.noConfusion h
          · intro _ _
            rw [finishGeneration_progress]
            exact getLast90100 _
        · intro _ _
          rw [finishGeneration_progress]
          exact getLastEnd _ _
    · split
      · intro _ _
        rw [finishGeneration_progress]
        exact getLastEnd _ _
      · intro _ _
        exact getLastEnd _ _
  | exhausted =>
    dsimp only
    split
    · split
      · intro _ h
        exact Bool.noConfusion h
      · split
        · split
          · intro _ h
            exact Bool.noConfusion h
          · intro _ _
            rw [finishGeneration_progress]
            exact getLast90100 _
        · intro _ _
          rw [finishGeneration_progress]
          exact getLastEnd _ _
    · split
      · intro _ _
        rw [finishGeneration_progress]
        exact getLastEnd _ _
      · intro _ _
        exact getLastEnd _ _
  | parseBrk =>
    dsimp only
    split
    · split
      · intro _ h
        exact Bool.noConfusion h
      · split
        · split
          · intro _ h
            exact Bool.noConfusion h
          · intro _ _
            rw [finishGeneration_progress]
            exact getLast90100 _
        · intro _ _
          rw [finishGeneration_progress]
          exact getLastEnd _ _
    · split
      · intro _ _
        rw [finishGeneration_progress]
        exact getLastEnd _ _
      · intro _ _
        exact getLastEnd _ _

/-- C4 (amended): with a retry budget of at most 4 (the deployed call sites
use the default 3) the emitted progress sequence is monotonically
non-decreasing; and whenever the run does not exit through the cancellation
return and a `finished` completion is delivered, the last emitted progress
value is 100.  Cancellation delivers a completion whose last progress
emission is below 100, and budgets of 6 or more break monotonicity (the
per-attempt checkpoint `20 + 15 * attempt` passes 80), so the claim's
unconditional form is false. -/
theorem C4_progress_amended (params : Params) (mem0 : List Str) (mr : Nat)
    (env : Nat → Attempt) (flags : Nat → Bool) (hmr : mr ≤ 4) :
    isNonDecr (APIClientWorker.run params mem0 mr env flags).progress = true ∧
    ((APIClientWorker.run params mem0 mr env flags).cancelledExit = false →
      (APIClientWorker.run params mem0 mr env flags).outcome.isSome = true →
      (APIClientWorker.run params mem0 mr env flags).progress.getLast? =
        some 100) := by
  unfold APIClientWorker.run
  cases hpv : promptVal params with
  | null => exact ⟨rfl, fun _ h => Bool.noConfusion h⟩
  | bool b => exact ⟨rfl, fun _ h => Bool.noConfusion h⟩
  | num q => exact ⟨rfl, fun _ h => Bool.noConfusion h⟩
  | nan => exact ⟨rfl, fun _ h => Bool.noConfusion h⟩
  | inf b => exact ⟨rfl, fun _ h => Bool.noConfusion h⟩
  | arr l => exact ⟨rfl, fun _ h => Bool.noConfusion h⟩
  | obj l => exact ⟨rfl, fun _ h => Bool.noConfusion h⟩
  | str p =>
    dsimp only
    obtain ⟨hnd, hle⟩ := loopGo_progress (format_parameter_text params) env
      flags mr hmr mr 0 0 [] mem0 (by omega)
    exact ⟨runAfterLoop_monotone _ _ _ _ _ _ _ _ _ hnd hle,
      runAfterLoop_last100 _ _ _ _ _ _ _ _ _⟩

theorem C4_progress_amended_witness :
    isNonDecr (APIClientWorker.run [(S "prompt", PyVal.str (S "generate"))] []
        3 (fun _ => Attempt.exn (S "x")) (fun _ => false)).progress = true ∧
    (APIClientWorker.run [(S "prompt", PyVal.str (S "generate"))] [] 3
        (fun _ => Attempt.exn (S "x")) (fun _ => false)).progress.getLast? =
      some 100 :=
  ⟨(C4_progress_amended [(S "prompt", PyVal.str (S "generate"))] [] 3
      (fun _ => Attempt.exn (S "x")) (fun _ => false) (by decide)).1,
   (C4_progress_amended [(S "prompt", PyVal.str (S "generate"))] [] 3
      (fun _ => Attempt.exn (S "x")) (fun _ => false) (by decide)).2 rfl rfl⟩

/-- C4 counterexample: a cancelled run delivers its completion with a final
progress emission of 10, not 100; and with a budget of 6 the progress
sequence `[10, 20, 35, 50, 65, 80, 95, 80, 100]` is not monotone. -/
theorem C4_counterexample :
    ((APIClientWorker.run [(S "prompt", PyVal.str (S "generate"))] [] 3
        (fun _ => Attempt.exn (S "x")) (fun _ => true)).outcome.isSome = true ∧
     (APIClientWorker.run [(S "prompt", PyVal.str (S "generate"))] [] 3
        (fun _ => Attempt.exn (S "x")) (fun _ => true)).progress.getLast? =
       some 10) ∧
    isNonDecr (APIClientWorker.run [(S "prompt", PyVal.str (S "generate"))] []
        6 (fun _ => Attempt.exn (S "x")) (fun _ => false)).progress = false :=
  ⟨⟨rfl, rfl⟩, by decide⟩
